import Mathlib

/-!
# MKIDCore `binfile/binprocessor.c`

A shallow embedding of the binary-frame decoder and per-pixel photon
aggregator (`FixOverflowTimestamps`, `PopulateBeamMapImage`,
`InitializeBeamMap`, `ParseToMem`, `extract_photons`) and of the single-file
dump `cparsebin`, and theorems about them.

Conventions of the embedding.

* The target is LP64 little-endian (x86-64, GCC): `int` and `uint32_t` are
  32 bits, `long` and `uint64_t` 64 bits, conversions between integer types
  reduce modulo the width, and signed `int` arithmetic is taken to wrap in
  two's complement.  Bit-fields are allocated from the least significant bit
  in declaration order.
* A file is the list of its 64-bit words as the host loads them
  (`*((uint64_t *) &data[j])`, that is, the eight wire bytes read
  little-endian); the code byte-swaps every word before decoding it.
* A 2-D table (`uint32_t **`, `photon ***`) is a function of the two indices.
* The `float` fields of a photon are represented by the signed fixed-point
  integers they are converted from (`(float) raw * RAD2DEG / 32768.0` and
  `(float) raw * RAD2DEG / 16384.0`): the conversion is a function of the raw
  value alone and is not evaluated here.
* A per-pixel buffer is the list of photons written so far; the `uint32_t`
  counter `ptablect[x][y]` is kept next to it as a natural number, which is the
  counter of the code as long as it stays below 2^32 (`countersFit`).
* The single-precision division of the reallocation step of `ParseToMem` is
  evaluated in integer arithmetic (`floatOfNat`, `ceilFloatDiv`): round to
  nearest, ties to even, 24 significant bits.
* The beam map `DiskBeamMap` (`4 * n_bm_entries` values of type `long`) is the
  list of its quadruples.  A file holds a whole number of words.
* Printing and timing are left out.  `extract_photons` gives the value returned
  and the photons written.  The steps that add nothing to these, namely the
  staging of a packet in the local array `packet` (808*16 bytes), the read of
  the local `firstHeader`, the cleanup loop that frees the buffers and the room
  of `otable` (`n_max_photons` records), are described by `callDefined`, which
  tells when they are defined; `malloc` and `realloc` are taken to succeed.
  The parameter `verbose` does not reach the result.
-/

namespace MKIDCore

/-! ## Machine integers -/

/-- Conversion of an integer value to `int` (32-bit two's complement). -/
def toInt32 (v : Int) : Int := (v + 2147483648) % 4294967296 - 2147483648

/-- Conversion of an integer value to `uint32_t`. -/
def toUInt32 (v : Int) : Nat := (v % 4294967296).toNat

/-- Conversion of an integer value to `int64_t`. -/
def toInt64 (v : Int) : Int :=
  (v + 9223372036854775808) % 18446744073709551616 - 9223372036854775808

/-- Conversion of an integer value to `uint64_t`. -/
def toUInt64 (v : Int) : Nat := (v % 18446744073709551616).toNat

/-! ## Constants -/

/-- Source constant `MAX_CNT_RATE`. -/
def MAX_CNT_RATE : Nat := 2500

/-- The value `(uint32_t)(-1)` of `beamMapInitVal`. -/
def beamMapInitVal : Nat := 4294967295

/-! ## Byte swapping (the fallback macros of the source) -/

/-- Macro `bswap_16`. -/
def bswap_16 (value : Nat) : Nat := ((value &&& 0xff) <<< 8) ||| (value >>> 8)

/-- Macro `bswap_32`; the casts to `uint16_t` and `uint32_t` are the reductions. -/
def bswap_32 (value : Nat) : Nat :=
  (((bswap_16 ((value &&& 0xffff) % 65536)) % 4294967296) <<< 16) % 4294967296
    ||| (bswap_16 ((value >>> 16) % 65536)) % 4294967296

/-- Macro `__bswap_64`. -/
def __bswap_64 (value : Nat) : Nat :=
  (((bswap_32 ((value &&& 0xffffffff) % 4294967296)) % 18446744073709551616) <<< 32)
      % 18446744073709551616
    ||| (bswap_32 ((value >>> 32) % 4294967296)) % 18446744073709551616

/-- The `uint64_t` the host loads from eight consecutive wire bytes
(little-endian load). -/
def loadWord (b0 b1 b2 b3 b4 b5 b6 b7 : Nat) : Nat :=
  b0 + b1 * 2 ^ 8 + b2 * 2 ^ 16 + b3 * 2 ^ 24 + b4 * 2 ^ 32 + b5 * 2 ^ 40
    + b6 * 2 ^ 48 + b7 * 2 ^ 56

/-! ## Packet words -/

/-- Bit-field struct `hdrpacket`: `timestamp:36`, `frame:12`, `roach:8`, `start:8`. -/
structure hdrpacket where
  timestamp : Nat
  frame : Nat
  roach : Nat
  start : Nat
  deriving DecidableEq, Repr

/-- Bit-field struct `datapacket`: `baseline:17` and `wavelength:18` signed,
`timestamp:9`, `ycoord:10`, `xcoord:10` unsigned. -/
structure datapacket where
  baseline : Int
  wavelength : Int
  timestamp : Nat
  ycoord : Nat
  xcoord : Nat
  deriving DecidableEq, Repr

/-- Value of a signed bit-field of `bits` bits holding the pattern `v`. -/
def signedField (bits : Nat) (v : Nat) : Int :=
  if v < 2 ^ (bits - 1) then (v : Int) else (v : Int) - 2 ^ bits

/-- Reading a swapped word through `(struct hdrpacket *) (&swp1)`. -/
def hdrOfWord (w : Nat) : hdrpacket :=
  { timestamp := w % 2 ^ 36
    frame := (w / 2 ^ 36) % 2 ^ 12
    roach := (w / 2 ^ 48) % 2 ^ 8
    start := (w / 2 ^ 56) % 2 ^ 8 }

/-- Reading a swapped word through `(struct datapacket *) (&swp1)`. -/
def dataOfWord (w : Nat) : datapacket :=
  { baseline := signedField 17 (w % 2 ^ 17)
    wavelength := signedField 18 ((w / 2 ^ 17) % 2 ^ 18)
    timestamp := (w / 2 ^ 35) % 2 ^ 9
    ycoord := (w / 2 ^ 44) % 2 ^ 10
    xcoord := (w / 2 ^ 54) % 2 ^ 10 }

/-- The test `hdr->start == 0b11111111` on a loaded word. -/
def isHeaderWord (w : Nat) : Bool := (hdrOfWord (__bswap_64 w)).start == 255

/-! ## Timestamp reconstruction -/

/-- The `nWraps` local of `FixOverflowTimestamps`: an `int` expression, the
division truncating as in C. -/
def nWrapsOf (hdr : hdrpacket) (fileNameTime tsOffs : Int) : Int :=
  let fudgeFactor : Int := 3
  Int.tdiv
    (toInt32 (toInt32 (toInt32 (fileNameTime - tsOffs)
      - toInt32 ((hdr.timestamp / 2000 : Nat) : Int)) + fudgeFactor))
    1048576

/-- Function `FixOverflowTimestamps`.  The product `2000*nWraps*1048576` is `int`
arithmetic, converted to `unsigned long` for the addition, and the sum is stored
in the 36-bit field. -/
def FixOverflowTimestamps (hdr : hdrpacket) (fileNameTime tsOffs : Int) : hdrpacket :=
  let nWraps := nWrapsOf hdr fileNameTime tsOffs
  { hdr with
    timestamp :=
      ((hdr.timestamp + toUInt64 (toInt32 (toInt32 (2000 * nWraps) * 1048576)))
        % 18446744073709551616) % 2 ^ 36 }

/-! ## Beam-map image -/

/-- One quadruple `(resID, flag, x, y)` of `DiskBeamMap` (four `long`s). -/
structure BMEntry where
  resID : Int
  flag : Int
  x : Int
  y : Int
  deriving DecidableEq, Repr

/-- A `uint32_t **` table indexed `[x][y]`. -/
abbrev Table := Nat → Nat → Nat

/-- The assignment `t[x][y] = v`. -/
def setCell {α : Type} (t : Nat → Nat → α) (x y : Nat) (v : α) : Nat → Nat → α :=
  fun i j => if i = x ∧ j = y then v else t i j

/-- Function `InitializeBeamMap`: every cell with `x < beamCols`, `y < beamRows`
receives `value`. -/
def InitializeBeamMap (BeamMap : Table) (value : Nat) (beamCols beamRows : Nat) : Table :=
  fun x y => if x < beamCols ∧ y < beamRows then value else BeamMap x y

/-- Function `PopulateBeamMapImage`, one loop iteration per list entry.  The
locals `resID`, `flag`, `x`, `y` and the parameters `beamCols`, `beamRows` are
`int`. -/
def PopulateBeamMapImage : List BMEntry → Table × Table → Int → Int → Table × Table
  | [], img, _, _ => img
  | e :: es, img, beamCols, beamRows =>
    let resID := toInt32 e.resID
    let flag := toInt32 e.flag
    let x := toInt32 e.x
    let y := toInt32 e.y
    if x < 0 ∨ x ≥ beamCols then PopulateBeamMapImage es img beamCols beamRows
    else if y < 0 ∨ y ≥ beamRows then PopulateBeamMapImage es img beamCols beamRows
    else
      PopulateBeamMapImage es
        (setCell img.1 x.toNat y.toNat (toUInt32 resID),
         setCell img.2 x.toNat y.toNat (if flag > 1 then 2 else toUInt32 flag))
        beamCols beamRows

/-- The beam-map image `extract_photons` builds: both initialisations followed
by `PopulateBeamMapImage`. -/
def buildImage (DiskBeamMap : List BMEntry) (beamCols beamRows : Nat) : Table × Table :=
  PopulateBeamMapImage DiskBeamMap
    (InitializeBeamMap (fun _ _ => 0) beamMapInitVal beamCols beamRows,
     InitializeBeamMap (fun _ _ => 0) 1 beamCols beamRows)
    (toInt32 beamCols) (toInt32 beamRows)

/-! ## Per-pixel accumulator -/

/-- Struct `photon`; `wavelength` and `baseline` hold the raw fixed-point values
whose conversions the `float` fields store. -/
structure photon where
  resID : Nat
  time : Nat
  wavelength : Int
  baseline : Int
  deriving DecidableEq, Repr

/-- The photon tables: `ptable[x][y]` (events written so far), `ptablect[x][y]`
and the number of slots the buffer `ptable[x][y]` was last (re)allocated with. -/
structure PhotonTables where
  ptable : Nat → Nat → List photon
  ptablect : Nat → Nat → Nat
  pcap : Nat → Nat → Nat

/-- The arguments of `ParseToMem` that are the same for every packet of a call,
and the global `tstart`. -/
structure Ctx where
  tsOffs : Int
  FirstFile : Int
  nFiles : Int
  BeamMap : Table
  BeamFlag : Table
  mapflag : Int
  beamCols : Nat
  beamRows : Nat
  tstart : Nat

/-- The integer nearest to `n / d`, the even one of the two when `n / d` lies
half-way between them: the default rounding of IEEE 754 arithmetic. -/
def roundNearestEven (n d : Nat) : Nat :=
  if 2 * (n % d) < d then n / d
  else if d < 2 * (n % d) then n / d + 1
  else if n / d % 2 = 0 then n / d else n / d + 1

/-- Halvings of `n` until it is below 2, at most `bound` of them. -/
def highBitAux : Nat → Nat → Nat
  | 0, _ => 0
  | bound + 1, n => if n < 2 then 0 else highBitAux bound (n / 2) + 1

/-- Index of the highest set bit of `n`, that is `floor (log2 n)`; 0 for `n = 0`. -/
def highBit (n : Nat) : Nat := highBitAux n n

/-- The conversion `(float) n` of an unsigned integer to single precision: `n`
rounded to 24 significant bits.  The value is again an integer. -/
def floatOfNat (n : Nat) : Nat :=
  roundNearestEven n (2 ^ (highBit n - 23)) * 2 ^ (highBit n - 23)

/-- The binary exponent `floor (log2 (a / b))` of the quotient of two positive
integers. -/
def quotientExponent (a b : Nat) : Int :=
  if b * 2 ^ highBit a ≤ a * 2 ^ highBit b then (highBit a : Int) - highBit b
  else (highBit a : Int) - highBit b - 1

/-- The value `ceil (a / b)` where `a` and `b` are `float` values that are
integers and the division is the single-precision one: the quotient is rounded
to 24 significant bits, that is to a multiple of `2 ^ (e - 23)` with `e` its
binary exponent, and `ceil` (on `double`) of the rounded quotient is exact. -/
def ceilFloatDiv (a b : Nat) : Nat :=
  if 0 ≤ 23 - quotientExponent a b then
    (roundNearestEven (a * 2 ^ (23 - quotientExponent a b).toNat) b
      + 2 ^ (23 - quotientExponent a b).toNat - 1) / 2 ^ (23 - quotientExponent a b).toNat
  else
    roundNearestEven a (b * 2 ^ (quotientExponent a b - 23).toNat)
      * 2 ^ (quotientExponent a b - 23).toNat

/-- The reallocation step of `ParseToMem`: the number of slots of a buffer that had
`cap` slots, after the test on its counter `ct`.  `cursize` is
`(long) ceil(ct / (float) MAX_CNT_RATE)`: the `uint32_t` counter is converted to
`float` and divided in single precision. -/
def grownCapacity (ct cap : Nat) : Nat :=
  if ct % MAX_CNT_RATE = MAX_CNT_RATE - 2 then
    MAX_CNT_RATE * (ceilFloatDiv (floatOfNat ct) MAX_CNT_RATE + 1)
  else cap

/-- One iteration of the data-word loop of `ParseToMem` on the loaded word `w`. -/
def ingest (c : Ctx) (basetime : Int) (st : PhotonTables) (w : Nat) : PhotonTables :=
  let data := dataOfWord (__bswap_64 w)
  if data.xcoord ≥ c.beamCols ∨ data.ycoord ≥ c.beamRows then st
  else if c.mapflag > 0 ∧ c.BeamFlag data.xcoord data.ycoord > 0 then st
  else
    let ct := st.ptablect data.xcoord data.ycoord
    let cap := grownCapacity ct (st.pcap data.xcoord data.ycoord)
    let p : photon :=
      { resID := c.BeamMap data.xcoord data.ycoord
        time := toUInt32 (basetime * 500 + data.timestamp)
        wavelength := data.wavelength
        baseline := data.baseline }
    { ptable := setCell st.ptable data.xcoord data.ycoord
        (st.ptable data.xcoord data.ycoord ++ [p])
      ptablect := setCell st.ptablect data.xcoord data.ycoord (ct + 1)
      pcap := setCell st.pcap data.xcoord data.ycoord cap }

/-- The `basetime` local of `ParseToMem` for a packet whose first loaded word is
`w0`, in file `iFile`. -/
def basetimeOf (c : Ctx) (iFile : Int) (w0 : Nat) : Int :=
  toInt64
    (((FixOverflowTimestamps (hdrOfWord (__bswap_64 w0))
        (toInt32 (c.FirstFile + iFile)) c.tsOffs).timestamp : Int) - c.tstart)

/-- Function `ParseToMem` on the packet of `l` bytes whose words are the first
`l / 8` elements of `packet`. -/
def ParseToMem (c : Ctx) (packet : List Nat) (l : Nat) (iFile : Int)
    (st : PhotonTables) : PhotonTables :=
  if (hdrOfWord (__bswap_64 (packet.headD 0))).start ≠ 255 then st
  else
    let basetime := basetimeOf c iFile (packet.headD 0)
    if basetime < 0 ∨ basetime ≥ 2000 * c.nFiles then st
    else ((packet.take (l / 8)).drop 1).foldl (ingest c basetime) st

/-! ## File-window driver -/

/-- The first loop over a file: index of the first header word, scanning from
word index `j`. -/
def findFirstHeader : List Nat → Nat → Option Nat
  | [], _ => none
  | w :: ws, j => if isHeaderWord w then some j else findFirstHeader ws (j + 1)

/-- The second loop over a file, at word index `k` with the words from `k` on in
the second argument.  `data` is the whole file and `pstart` the local of that
name; on a header word the region `&data[pstart/8]` of `k*8 - pstart` bytes is
handed to `ParseToMem`. -/
def parsePackets (c : Ctx) (iFile : Int) (data : List Nat) :
    List Nat → Nat → Nat → PhotonTables → PhotonTables
  | [], _, _, st => st
  | w :: ws, k, pstart, st =>
    if isHeaderWord w then
      parsePackets c iFile data ws (k + 1) (k * 8)
        (ParseToMem c (data.drop (pstart / 8)) (k * 8 - pstart) iFile st)
    else parsePackets c iFile data ws (k + 1) pstart st

/-- The body of the file loop once the file is read: both word loops.  The first
loop sets `firstHeader = j; pstart = j;`.  When the file has no header word the
second loop, which starts from the `firstHeader` an earlier file has left, finds
none either, so nothing is delivered (`filesDefined` tells whether `firstHeader`
was ever assigned). -/
def processFile (c : Ctx) (iFile : Int) (data : List Nat) (st : PhotonTables) :
    PhotonTables :=
  match findFirstHeader data 0 with
  | none => st
  | some firstHeader =>
    parsePackets c iFile data (data.drop (firstHeader + 1)) (firstHeader + 1) firstHeader st

/-- The `(packet, l)` arguments of the calls of `ParseToMem` the second loop
makes, in call order (same recursion as `parsePackets`). -/
def packetCalls (data : List Nat) : List Nat → Nat → Nat → List (List Nat × Nat)
  | [], _, _ => []
  | w :: ws, k, pstart =>
    if isHeaderWord w then
      (data.drop (pstart / 8), k * 8 - pstart) :: packetCalls data ws (k + 1) (k * 8)
    else packetCalls data ws (k + 1) pstart

/-- The calls of `ParseToMem` made for one file. -/
def fileCalls (data : List Nat) : List (List Nat × Nat) :=
  match findFirstHeader data 0 with
  | none => []
  | some firstHeader => packetCalls data (data.drop (firstHeader + 1)) (firstHeader + 1) firstHeader

/-- The size of the read buffer, `1.1*MAX_CNT_RATE*bmap_ncol*bmap_nrow*8` (the
product is taken exactly). -/
def DATA_BUFFER_SIZE_BYTES (bmap_ncol bmap_nrow : Nat) : Nat :=
  11 * MAX_CNT_RATE * bmap_ncol * bmap_nrow * 8 / 10

/-- The file loop over the values `is` of `i`.  `dir s` is the content of
`s.bin` when that file exists.  The result is `none` when a file is larger than
the read buffer (the function then returns `-1`). -/
def readFiles (c : Ctx) (dir : Int → Option (List Nat)) (bufSize : Nat) :
    List Int → PhotonTables → Option PhotonTables
  | [], st => some st
  | i :: is, st =>
    match dir (c.FirstFile + i) with
    | none => readFiles c dir bufSize is st
    | some data =>
      if bufSize < 8 * data.length then none
      else readFiles c dir bufSize is (processFile c (toInt32 i) data st)

/-- The values `-1, 0, ..., nFiles` the file loop gives to `i`. -/
def fileIndices (nFiles : Nat) : List Int :=
  (List.range (nFiles + 2)).map (fun n => (n : Int) - 1)

/-! ## Year anchor (C library `gmtime` and `timegm`) -/

/-- Gregorian leap years. -/
def isLeapYear (y : Int) : Bool := (y % 4 == 0 && y % 100 != 0) || y % 400 == 0

/-- Seconds in the calendar year `y`. -/
def secondsInYear (y : Int) : Int := if isLeapYear y then 366 * 86400 else 365 * 86400

/-- Search forward from the year `y`, which starts at second `s`. -/
def yearStartForward : Nat → Int → Int → Int → Int
  | 0, _, s, _ => s
  | n + 1, y, s, t =>
    if t < s + secondsInYear y then s else yearStartForward n (y + 1) (s + secondsInYear y) t

/-- Search backward from the year `y`, which ends (exclusive) at second `e`. -/
def yearStartBackward : Nat → Int → Int → Int → Int
  | 0, _, e, _ => e
  | n + 1, y, e, t =>
    if e - secondsInYear y ≤ t then e - secondsInYear y
    else yearStartBackward n (y - 1) (e - secondsInYear y) t

/-- Epoch second of 1 January 00:00 UTC of the year containing the second `t`
(an `int` value): what `timegm` returns for `tm_year` taken from `gmtime`,
`tm_mday = 1` and all other fields zero. -/
def yearStartUtc (t : Int) : Int :=
  if 0 ≤ t then yearStartForward 70 1970 0 t else yearStartBackward 70 1969 0 t

/-! ## Materializer and the primary operation -/

/-- The materialisation loop of `extract_photons` over the remaining entries,
with the current `nPhot` and the photons written to `otable` so far.  `x` and
`y` are `long`; the comparison with the `uint32_t` bounds is signed.  The result
is `none` when `BeamMap[x][y]` is read with a negative index. -/
def materialize (BeamMap : Table) (st : PhotonTables) (beamCols beamRows : Nat) :
    List BMEntry → Nat × List photon → Option (Nat × List photon)
  | [], acc => some acc
  | e :: es, acc =>
    if e.x = 0 ∧ e.y = 0 then materialize BeamMap st beamCols beamRows es acc
    else if e.x ≥ beamCols ∨ e.y ≥ beamRows then
      materialize BeamMap st beamCols beamRows es acc
    else if e.x < 0 ∨ e.y < 0 then none
    else if BeamMap e.x.toNat e.y.toNat = beamMapInitVal then
      materialize BeamMap st beamCols beamRows es acc
    else if st.ptablect e.x.toNat e.y.toNat = 0 then
      materialize BeamMap st beamCols beamRows es acc
    else
      materialize BeamMap st beamCols beamRows es
        (acc.1 + st.ptablect e.x.toNat e.y.toNat,
         acc.2.take acc.1
           ++ (st.ptable e.x.toNat e.y.toNat).take (st.ptablect e.x.toNat e.y.toNat))

/-- The photon tables before the file loop: counters from `calloc`, and a buffer
of `MAX_CNT_RATE` slots for every cell whose `BeamMap` value is not the initial
value. -/
def initTables (BeamMap : Table) (beamCols beamRows : Nat) : PhotonTables :=
  { ptable := fun _ _ => []
    ptablect := fun _ _ => 0
    pcap := fun x y =>
      if x < beamCols ∧ y < beamRows ∧ BeamMap x y ≠ beamMapInitVal then MAX_CNT_RATE
      else 0 }

/-- The `Ctx` of a call of `extract_photons`. -/
def callCtx (start_timestamp integration_time : Nat) (DiskBeamMap : List BMEntry)
    (bmap_ncol bmap_nrow : Nat) : Ctx :=
  let FirstFile := toInt32 start_timestamp
  let nFiles := toUInt32 (integration_time + 1)
  let tsOffs := toUInt32 (yearStartUtc FirstFile)
  let img := buildImage DiskBeamMap bmap_ncol bmap_nrow
  { tsOffs := toInt32 tsOffs
    FirstFile := FirstFile
    nFiles := toInt32 nFiles
    BeamMap := img.1
    BeamFlag := img.2
    mapflag := 1
    beamCols := bmap_ncol
    beamRows := bmap_nrow
    tstart := toUInt32 (FirstFile - tsOffs) * 2000 }

/-- The photon tables at the end of the file loop of `extract_photons`; `none`
when the loop returns `-1`. -/
def finalTables (dir : Int → Option (List Nat)) (start_timestamp integration_time : Nat)
    (DiskBeamMap : List BMEntry) (bmap_ncol bmap_nrow : Nat) : Option PhotonTables :=
  let c := callCtx start_timestamp integration_time DiskBeamMap bmap_ncol bmap_nrow
  readFiles c dir (DATA_BUFFER_SIZE_BYTES bmap_ncol bmap_nrow)
    (fileIndices (toUInt32 (integration_time + 1)))
    (initTables c.BeamMap bmap_ncol bmap_nrow)

/-- What a call of `extract_photons` leaves: the returned `long` and the photons
written to `otable`. -/
structure ExtractResult where
  ret : Int
  otable : List photon
  deriving DecidableEq, Repr

/-- Function `extract_photons`: the value returned and the photons written to
`otable`.  `dirExists` is the outcome of the `opendir` test; `DiskBeamMap` lists
the `n_bm_entries` quadruples.  The result is `none` when the materialisation
loop indexes a table with a negative index.  The cleanup loop after the
materialisation loop, the local array `packet` and the local `firstHeader` are
not followed here: the result is that of the call when `callDefined` holds. -/
def extract_photons (dirExists : Bool) (dir : Int → Option (List Nat))
    (start_timestamp integration_time : Nat) (DiskBeamMap : List BMEntry)
    (bmap_ncol bmap_nrow : Nat) : Option ExtractResult :=
  let nFiles := toUInt32 (integration_time + 1)
  if !dirExists then some { ret := -1, otable := [] }
  else if nFiles < 1 ∨ nFiles > 1800 then some { ret := -1, otable := [] }
  else
    let c := callCtx start_timestamp integration_time DiskBeamMap bmap_ncol bmap_nrow
    match finalTables dir start_timestamp integration_time DiskBeamMap bmap_ncol bmap_nrow with
    | none => some { ret := -1, otable := [] }
    | some st =>
      match materialize c.BeamMap st bmap_ncol bmap_nrow DiskBeamMap (0, []) with
      | none => none
      | some acc => some { ret := (acc.1 : Int), otable := acc.2 }

/-! ## Secondary operation: single-file dump -/

/-- One record of the parallel arrays `baseline`, `wavelength`, `time`, `ycoord`,
`xcoord`, `roach` of `cparsebin`; the two `float` values are represented by the
raw fixed-point values they are converted from. -/
structure binEvent where
  baseline : Int
  wavelength : Int
  time : Nat
  ycoord : Nat
  xcoord : Nat
  roach : Nat
  deriving DecidableEq, Repr

/-- The locals `pcount`, `curtime`, `curroach` of `cparsebin` and what it has
written so far: `out i` is the record written last at index `i` of the six
arrays (they are always written together, at the same index), `none` when the
index was never written. -/
structure ParseBinState where
  out : Nat → Option binEvent
  pcount : Nat
  curtime : Nat
  curroach : Nat

/-- One iteration of the second loop of `cparsebin` on the loaded word `w`. -/
def cparsebinStep (max_len : Nat) (s : ParseBinState) (w : Nat) : ParseBinState :=
  if (hdrOfWord (__bswap_64 w)).start = 255 then
    { s with
      curtime := toUInt64 ((hdrOfWord (__bswap_64 w)).timestamp * 500)
      curroach := (hdrOfWord (__bswap_64 w)).roach }
  else
    let out_i := if s.pcount ≥ max_len then max_len else s.pcount
    let photondata := dataOfWord (__bswap_64 w)
    { s with
      out := fun i =>
        if i = out_i then
          some { baseline := photondata.baseline
                 wavelength := photondata.wavelength
                 time := toUInt64 (photondata.timestamp + s.curtime)
                 ycoord := photondata.ycoord
                 xcoord := photondata.xcoord
                 roach := toUInt32 s.curroach }
        else s.out i
      pcount := s.pcount + 1 }

/-- Function `cparsebin` on a file that was read whole: the returned `pcount` and
the records written.  The result is `none` when the file has no header word
(`firstHeader` is then read uninitialised). -/
def cparsebin (max_len : Nat) (data : List Nat) : Option (Int × (Nat → Option binEvent)) :=
  match findFirstHeader data 0 with
  | none => none
  | some firstHeader =>
    let s :=
      (data.drop (firstHeader + 1)).foldl (cparsebinStep max_len)
        { out := fun _ => none
          pcount := 0
          curtime := toUInt64 ((hdrOfWord (__bswap_64 (data.getD firstHeader 0))).timestamp * 500)
          curroach := (hdrOfWord (__bswap_64 (data.getD firstHeader 0))).roach }
    some ((s.pcount : Int), s.out)

/-! ## Notions used to state the properties -/

/-- The calls of `ParseToMem` made by the file loop over the values `is` of `i`:
the `iFile` argument with the `(packet, l)` arguments, in call order. -/
def dirCalls (c : Ctx) (dir : Int → Option (List Nat)) : List Int → List (Int × List Nat × Nat)
  | [] => []
  | i :: is =>
    match dir (c.FirstFile + i) with
    | none => dirCalls c dir is
    | some data => (fileCalls data).map (fun pk => (toInt32 i, pk)) ++ dirCalls c dir is

/-- The data words of one delivered packet that reach the data-word loop of
`ParseToMem`, each paired with the `basetime` of the packet: none when the first
word is not a header or `basetime` is outside the window. -/
def packetEvents (c : Ctx) (call : Int × List Nat × Nat) : List (Int × Nat) :=
  if (hdrOfWord (__bswap_64 (call.2.1.headD 0))).start ≠ 255 then []
  else if basetimeOf c call.1 (call.2.1.headD 0) < 0
      ∨ basetimeOf c call.1 (call.2.1.headD 0) ≥ 2000 * c.nFiles then []
  else ((call.2.1.take (call.2.2 / 8)).drop 1).map
    (fun w => (basetimeOf c call.1 (call.2.1.headD 0), w))

/-- All data words of delivered in-window packets of a list of calls, in stream
order. -/
def streamEvents (c : Ctx) : List (Int × List Nat × Nat) → List (Int × Nat)
  | [] => []
  | call :: calls => packetEvents c call ++ streamEvents c calls

/-- Whether the data word of the event is addressed to pixel `(x, y)`. -/
def addressedTo (x y : Nat) (ev : Int × Nat) : Bool :=
  (dataOfWord (__bswap_64 ev.2)).xcoord == x && (dataOfWord (__bswap_64 ev.2)).ycoord == y

/-- The photon `ParseToMem` writes for a data word of a packet with the given
`basetime`. -/
def photonOf (c : Ctx) (ev : Int × Nat) : photon :=
  { resID := c.BeamMap (dataOfWord (__bswap_64 ev.2)).xcoord (dataOfWord (__bswap_64 ev.2)).ycoord
    time := toUInt32 (ev.1 * 500 + (dataOfWord (__bswap_64 ev.2)).timestamp)
    wavelength := (dataOfWord (__bswap_64 ev.2)).wavelength
    baseline := (dataOfWord (__bswap_64 ev.2)).baseline }

/-- The photons of the data words addressed to `(x, y)` among the delivered
in-window packets of a list of calls, in stream order. -/
def pixelEvents (c : Ctx) (calls : List (Int × List Nat × Nat)) (x y : Nat) : List photon :=
  ((streamEvents c calls).filter (addressedTo x y)).map (photonOf c)

/-- Whether the `long` coordinates of an entry are those of a cell of the table. -/
def entryInRange (beamCols beamRows : Nat) (e : BMEntry) : Bool :=
  decide (0 ≤ e.x) && decide (e.x < beamCols) && decide (0 ≤ e.y) && decide (e.y < beamRows)

/-- Whether the materialisation loop passes its first three tests at an entry:
coordinates of a cell, not both zero, and a `BeamMap` value other than the
initial one. -/
def entryEmitted (BeamMap : Table) (beamCols beamRows : Nat) (e : BMEntry) : Bool :=
  entryInRange beamCols beamRows e && !(decide (e.x = 0) && decide (e.y = 0))
    && decide (BeamMap e.x.toNat e.y.toNat ≠ beamMapInitVal)

/-- The events the materialisation loop copies for one entry. -/
def entryEvents (BeamMap : Table) (st : PhotonTables) (beamCols beamRows : Nat)
    (e : BMEntry) : List photon :=
  if entryEmitted BeamMap beamCols beamRows e then st.ptable e.x.toNat e.y.toNat else []

/-- The events copied for a list of entries, in list order. -/
def entriesEvents (BeamMap : Table) (st : PhotonTables) (beamCols beamRows : Nat) :
    List BMEntry → List photon
  | [] => []
  | e :: es =>
    entryEvents BeamMap st beamCols beamRows e ++ entriesEvents BeamMap st beamCols beamRows es

/-- The sum of `ptablect[x][y]` over the entries satisfying `keep`, one term per
entry. -/
def countSum (st : PhotonTables) (keep : BMEntry → Bool) : List BMEntry → Nat
  | [] => 0
  | e :: es =>
    (if keep e then st.ptablect e.x.toNat e.y.toNat else 0) + countSum st keep es

/-- The packing of a data word the specification describes: from the most
significant bit, `x` (10 bits), `y` (10), `t_sub` (9), `wavelength_raw` (18, two's
complement) and `baseline_raw` (17, two's complement). -/
def packDataWord (x y t_sub : Nat) (wavelength_raw baseline_raw : Int) : Nat :=
  x * 2 ^ 54 + y * 2 ^ 44 + t_sub * 2 ^ 35 + (wavelength_raw % 2 ^ 18).toNat * 2 ^ 17
    + (baseline_raw % 2 ^ 17).toNat

/-- The number of slots of the buffer of an assigned pixel after `k` events have
been appended to it, starting from `MAX_CNT_RATE` slots and counter 0: the
reallocation step before each write. -/
def capacityAfter : Nat → Nat
  | 0 => MAX_CNT_RATE
  | k + 1 => grownCapacity k (capacityAfter k)

/-- The last entry in list order whose coordinates, as `PopulateBeamMapImage`
reads them into its `int` locals, are `(x, y)`. -/
def lastEntryAt (x y : Nat) : List BMEntry → Option BMEntry
  | [] => none
  | e :: es =>
    match lastEntryAt x y es with
    | some f => some f
    | none => if toInt32 e.x = x ∧ toInt32 e.y = y then some e else none

/-- The input stream: the words of the files that exist, files in the order of
the values `is` of `i` and words in file order. -/
def streamWords (c : Ctx) (dir : Int → Option (List Nat)) : List Int → List Nat
  | [] => []
  | i :: is =>
    match dir (c.FirstFile + i) with
    | none => streamWords c dir is
    | some data => data ++ streamWords c dir is

/-- The directory `dir` with the words `extra` appended to the file `second.bin`
(when that file exists). -/
def appendToFile (dir : Int → Option (List Nat)) (second : Int) (extra : List Nat) :
    Int → Option (List Nat) :=
  fun s => if s = second then (dir s).map (fun data => data ++ extra) else dir s

/-- The index pairs `(x, y)` with which the materialisation loop reads
`BeamMap[x][y]` (and, when the value is not the initial one, `ptablect[x][y]`):
those of the entries that pass the first two tests of the loop, in list order. -/
def materializeReads (beamCols beamRows : Nat) : List BMEntry → List (Int × Int)
  | [] => []
  | e :: es =>
    if e.x = 0 ∧ e.y = 0 then materializeReads beamCols beamRows es
    else if e.x ≥ beamCols ∨ e.y ≥ beamRows then materializeReads beamCols beamRows es
    else (e.x, e.y) :: materializeReads beamCols beamRows es

/-! ## Steps of `extract_photons` that return no value -/

/-- The cleanup loop of `extract_photons` frees `ptable[i][j]` for every cell whose
`BeamMap` value is not 0; the allocation loop has set that pointer for every
cell whose `BeamMap` value is not the initial one, and `ptable[i]` comes from
`malloc`, so every other pointer is indeterminate.  Whether the loop frees only
pointers that were set. -/
def cleanupDefined (BeamMap : Table) (beamCols beamRows : Nat) : Bool :=
  (List.range beamCols).all fun i => (List.range beamRows).all fun j =>
    decide (BeamMap i j = 0) || decide (BeamMap i j ≠ beamMapInitVal)

/-- The file loop over the values `is` of `i`, as to its locals `firstHeader` and
`packet`: `headerSeen` tells whether `firstHeader` has been assigned.  False
when the second word loop reads `firstHeader` before any file has assigned it,
or when `memmove` copies more than the `808*16` bytes of `packet`.  The loop
ends at a file larger than the read buffer. -/
def filesDefined (c : Ctx) (dir : Int → Option (List Nat)) (bufSize : Nat) :
    List Int → Bool → Bool
  | [], _ => true
  | i :: is, headerSeen =>
    match dir (c.FirstFile + i) with
    | none => filesDefined c dir bufSize is headerSeen
    | some data =>
      if bufSize < 8 * data.length then true
      else
        match findFirstHeader data 0 with
        | none => headerSeen && filesDefined c dir bufSize is headerSeen
        | some _ =>
          (fileCalls data).all (fun call => decide (call.2 ≤ 808 * 16))
            && filesDefined c dir bufSize is true

/-- Whether every counter of the table is a `uint32_t` value. -/
def countersFit (st : PhotonTables) (beamCols beamRows : Nat) : Bool :=
  (List.range beamCols).all fun i => (List.range beamRows).all fun j =>
    decide (st.ptablect i j < 2 ^ 32)

/-- Conditions under which the steps of a call of `extract_photons` that
`extract_photons` above does not follow are defined, every `malloc` and
`realloc` succeeding: the cleanup loop frees only allocated buffers (then every
cell has a buffer, and `ParseToMem` writes to none that was not allocated);
`firstHeader` is assigned before it is read and every packet fits `packet`; the
counters stay below `2 ^ 32`, so that they are the `uint32_t` ones; and the
photons copied to `otable` are at most the `n_max_photons` records the caller
provides. -/
def callDefined (dir : Int → Option (List Nat)) (start_timestamp integration_time : Nat)
    (DiskBeamMap : List BMEntry) (bmap_ncol bmap_nrow n_max_photons : Nat) : Bool :=
  let c := callCtx start_timestamp integration_time DiskBeamMap bmap_ncol bmap_nrow
  cleanupDefined c.BeamMap bmap_ncol bmap_nrow
    && filesDefined c dir (DATA_BUFFER_SIZE_BYTES bmap_ncol bmap_nrow)
        (fileIndices (toUInt32 (integration_time + 1))) false
    && (match finalTables dir start_timestamp integration_time DiskBeamMap bmap_ncol
          bmap_nrow with
        | none => true
        | some st =>
          countersFit st bmap_ncol bmap_nrow
            && decide (countSum st (entryEmitted c.BeamMap bmap_ncol bmap_nrow) DiskBeamMap
                ≤ n_max_photons))

/-! ## Inputs of the scenarios -/

/-- A directory holding the single file `second.bin` with the given words. -/
def oneFileDir (second : Int) (data : List Nat) : Int → Option (List Nat) :=
  fun s => if s = second then some data else none

/-- Header word with roach 0, frame 0 and timestamp 0: wire bytes
`FF 00 00 00 00 00 00 00`. -/
def hdrWord0 : Nat := loadWord 255 0 0 0 0 0 0 0

/-- Data word `(x=3, y=4, t_sub=100, wavelength_raw=16384, baseline_raw=8192)`:
wire bytes `00 C0 43 20 80 00 20 00`. -/
def dataWordS2 : Nat := loadWord 0 192 67 32 128 0 32 0

/-- Data word with every field zero (pixel `(0, 0)`): eight zero bytes. -/
def dataWord00 : Nat := loadWord 0 0 0 0 0 0 0 0

/-- Header word with timestamp 2001 half-ms: wire bytes `FF 00 00 00 00 00 07 D1`. -/
def hdrWordLate : Nat := loadWord 255 0 0 0 0 0 7 209

/-- Beam map that assigns every cell of a 10 x 10 array, one entry per cell, with
flag 0 and `resID = 10 * x + y + 8`; its entry for the cell `(3, 4)` is the entry
`(42, 0, 3, 4)` of scenario S2. -/
def gridS2 : List BMEntry :=
  (List.range 10).flatMap fun x => (List.range 10).map fun y =>
    { resID := 10 * (x : Int) + (y : Int) + 8, flag := 0, x := (x : Int), y := (y : Int) }

/-- Beam map of scenario S2. -/
def beamMapS2 : List BMEntry := [{ resID := 42, flag := 0, x := 3, y := 4 }]

/-- Beam map of scenario S3: the entry of S2 with flag 1. -/
def beamMapS3 : List BMEntry := [{ resID := 42, flag := 1, x := 3, y := 4 }]

/-- Data word `(x=1, y=1)` with every other field zero: wire bytes
`00 40 10 00 00 00 00 00`. -/
def dataWord11 : Nat := loadWord 0 64 16 0 0 0 0 0

/-- A directory without files. -/
def emptyDir : Int → Option (List Nat) := fun _ => none

/-! ## Arithmetic of the codec -/

theorem shl_lor_eq (a b i : Nat) (h : b < 2 ^ i) : (a <<< i) ||| b = a * 2 ^ i + b := by
  rw [Nat.shiftLeft_eq, mul_comm a, ← Nat.mul_add_lt_is_or h]

theorem land_ff (x : Nat) : x &&& 0xff = x % 256 := by
  have := Nat.and_pow_two_sub_one_eq_mod x 8
  norm_num at this
  exact this

theorem land_ffff (x : Nat) : x &&& 0xffff = x % 65536 := by
  have := Nat.and_pow_two_sub_one_eq_mod x 16
  norm_num at this
  exact this

theorem land_ffffffff (x : Nat) : x &&& 0xffffffff = x % 4294967296 := by
  have := Nat.and_pow_two_sub_one_eq_mod x 32
  norm_num at this
  exact this

theorem bswap_16_bytes (a b : Nat) (ha : a < 256) (hb : b < 256) :
    bswap_16 (a + b * 256) = a * 256 + b := by
  unfold bswap_16
  rw [land_ff, Nat.shiftRight_eq_div_pow]
  have h1 : (a + b * 256) % 256 = a := by omega
  have h2 : (a + b * 256) / 2 ^ 8 = b := by norm_num; omega
  rw [h1, h2, shl_lor_eq a b 8 (by norm_num; exact hb)]
  norm_num

theorem bswap_32_bytes (a b c d : Nat) (ha : a < 256) (hb : b < 256) (hc : c < 256)
    (hd : d < 256) :
    bswap_32 (a + b * 256 + c * 65536 + d * 16777216)
      = a * 16777216 + b * 65536 + c * 256 + d := by
  unfold bswap_32
  rw [land_ffff, Nat.shiftRight_eq_div_pow]
  have h1 : (a + b * 256 + c * 65536 + d * 16777216) % 65536 % 65536 = a + b * 256 := by omega
  have h2 : (a + b * 256 + c * 65536 + d * 16777216) / 2 ^ 16 % 65536 = c + d * 256 := by
    norm_num; omega
  rw [h1, h2, bswap_16_bytes a b ha hb, bswap_16_bytes c d hc hd]
  have h3 : (a * 256 + b) % 4294967296 = a * 256 + b := by omega
  have h4 : (c * 256 + d) % 4294967296 = c * 256 + d := by omega
  rw [h3, h4, Nat.shiftLeft_eq]
  have h5 : (a * 256 + b) * 2 ^ 16 % 4294967296 = (a * 256 + b) * 2 ^ 16 := by
    norm_num; omega
  rw [h5, ← Nat.shiftLeft_eq, shl_lor_eq _ _ 16 (by norm_num; omega)]
  norm_num; omega

theorem bswap_64_bytes (b0 b1 b2 b3 b4 b5 b6 b7 : Nat) (h0 : b0 < 256) (h1 : b1 < 256)
    (h2 : b2 < 256) (h3 : b3 < 256) (h4 : b4 < 256) (h5 : b5 < 256) (h6 : b6 < 256)
    (h7 : b7 < 256) :
    __bswap_64 (loadWord b0 b1 b2 b3 b4 b5 b6 b7)
      = b0 * 2 ^ 56 + b1 * 2 ^ 48 + b2 * 2 ^ 40 + b3 * 2 ^ 32 + b4 * 2 ^ 24 + b5 * 2 ^ 16
        + b6 * 2 ^ 8 + b7 := by
  unfold __bswap_64 loadWord
  rw [land_ffffffff, Nat.shiftRight_eq_div_pow]
  norm_num
  have e1 : (b0 + b1 * 256 + b2 * 65536 + b3 * 16777216 + b4 * 4294967296
      + b5 * 1099511627776 + b6 * 281474976710656 + b7 * 72057594037927936) % 4294967296
      = b0 + b1 * 256 + b2 * 65536 + b3 * 16777216 := by omega
  have e2 : (b0 + b1 * 256 + b2 * 65536 + b3 * 16777216 + b4 * 4294967296
      + b5 * 1099511627776 + b6 * 281474976710656 + b7 * 72057594037927936) / 4294967296
      % 4294967296 = b4 + b5 * 256 + b6 * 65536 + b7 * 16777216 := by omega
  rw [e1, e2, bswap_32_bytes b0 b1 b2 b3 h0 h1 h2 h3, bswap_32_bytes b4 b5 b6 b7 h4 h5 h6 h7]
  have e3 : (b0 * 16777216 + b1 * 65536 + b2 * 256 + b3) % 18446744073709551616
      = b0 * 16777216 + b1 * 65536 + b2 * 256 + b3 := by omega
  have e4 : (b4 * 16777216 + b5 * 65536 + b6 * 256 + b7) % 18446744073709551616
      = b4 * 16777216 + b5 * 65536 + b6 * 256 + b7 := by omega
  rw [e3, e4, Nat.shiftLeft_eq]
  have e5 : (b0 * 16777216 + b1 * 65536 + b2 * 256 + b3) * 2 ^ 32 % 18446744073709551616
      = (b0 * 16777216 + b1 * 65536 + b2 * 256 + b3) * 2 ^ 32 := by
    norm_num; omega
  rw [e5, ← Nat.shiftLeft_eq, shl_lor_eq _ _ 32 (by norm_num; omega)]
  norm_num; omega

theorem toInt32_of_range (v : Int) (h1 : -2147483648 ≤ v) (h2 : v < 2147483648) :
    toInt32 v = v := by
  unfold toInt32; omega

/-- The quotient `nWraps` is the number of wraps, whatever that number is. -/
theorem nWrapsOf_eq_wraps (F Y : Int) (n T ts fr ro st : Nat) (hT : T < 2 ^ 36)
    (hts : ts + n * 2000 * 1048576 = T)
    (hlo : 0 ≤ F - Y + 3 - ((T / 2000 : Nat) : Int))
    (hhi : F - Y + 3 - ((T / 2000 : Nat) : Int) < 1048576) :
    nWrapsOf { timestamp := ts, frame := fr, roach := ro, start := st } F Y = n := by
  unfold nWrapsOf
  norm_num at hT
  simp only
  have hq : ((ts / 2000 : Nat) : Int) = ((T / 2000 : Nat) : Int) - n * 1048576 := by omega
  have hTq : ((T / 2000 : Nat) : Int) < 34359739 := by omega
  have e1 : toInt32 (F - Y) = F - Y := toInt32_of_range _ (by omega) (by omega)
  have e2 : toInt32 ((ts / 2000 : Nat) : Int) = ((ts / 2000 : Nat) : Int) :=
    toInt32_of_range _ (by omega) (by omega)
  have e3 : toInt32 (F - Y - ((ts / 2000 : Nat) : Int)) = F - Y - ((ts / 2000 : Nat) : Int) :=
    toInt32_of_range _ (by omega) (by omega)
  have e4 : toInt32 (F - Y - ((ts / 2000 : Nat) : Int) + 3)
      = F - Y - ((ts / 2000 : Nat) : Int) + 3 :=
    toInt32_of_range _ (by omega) (by omega)
  rw [e1, e2, e3, e4, Int.tdiv_eq_ediv (by omega) (by omega)]
  omega

/-- With at most one wrap the product stays inside `int` and the corrected
timestamp is the true one. -/
theorem FixOverflowTimestamps_one_wrap (F Y : Int) (n T ts fr ro st : Nat) (hT : T < 2 ^ 36)
    (hts : ts + n * 2000 * 1048576 = T)
    (hlo : 0 ≤ F - Y + 3 - ((T / 2000 : Nat) : Int))
    (hhi : F - Y + 3 - ((T / 2000 : Nat) : Int) < 1048576) (hn : n ≤ 1) :
    (FixOverflowTimestamps { timestamp := ts, frame := fr, roach := ro, start := st }
      F Y).timestamp = T := by
  unfold FixOverflowTimestamps
  simp only
  rw [nWrapsOf_eq_wraps F Y n T ts fr ro st hT hts hlo hhi]
  norm_num at hT
  interval_cases n
  · norm_num [toInt32, toUInt64]
    omega
  · norm_num [toInt32, toUInt64]
    omega

theorem toInt64_of_range (v : Int) (h1 : -9223372036854775808 ≤ v)
    (h2 : v < 9223372036854775808) : toInt64 v = v := by
  unfold toInt64; omega

theorem FixOverflowTimestamps_lt (hdr : hdrpacket) (F Y : Int) :
    (FixOverflowTimestamps hdr F Y).timestamp < 68719476736 := by
  unfold FixOverflowTimestamps
  simp only
  omega

/-- With `tstart` below 2^63 the conversions of `basetime` lose nothing: it is the
difference of the corrected timestamp and `tstart`. -/
theorem basetimeOf_eq (c : Ctx) (iFile : Int) (w0 : Nat) (htstart : c.tstart < 2 ^ 63) :
    basetimeOf c iFile w0
      = ((FixOverflowTimestamps (hdrOfWord (__bswap_64 w0))
          (toInt32 (c.FirstFile + iFile)) c.tsOffs).timestamp : Int) - c.tstart := by
  unfold basetimeOf
  have h := FixOverflowTimestamps_lt (hdrOfWord (__bswap_64 w0))
    (toInt32 (c.FirstFile + iFile)) c.tsOffs
  norm_num at htstart
  exact toInt64_of_range _ (by omega) (by omega)

/-- In every call of `extract_photons` the global `tstart` is below 2^63. -/
theorem callCtx_tstart_lt (start_timestamp integration_time : Nat)
    (DiskBeamMap : List BMEntry) (bmap_ncol bmap_nrow : Nat) :
    (callCtx start_timestamp integration_time DiskBeamMap bmap_ncol bmap_nrow).tstart
      < 2 ^ 63 := by
  show toUInt32 _ * 2000 < 2 ^ 63
  unfold toUInt32
  norm_num
  omega

/-! ## Codec claims -/

/-- Claim C9: for every eight wire bytes the swapped word is their big-endian
value, the word is a header exactly when its top eight bits (the first wire byte)
are `0xFF`, and the decoded fields are `roach` = bits 55..48 (second byte),
`frame` = bits 47..36 and `timestamp` = bits 35..0 of that value. -/
theorem header_decode (b0 b1 b2 b3 b4 b5 b6 b7 : Nat) (h0 : b0 < 256) (h1 : b1 < 256)
    (h2 : b2 < 256) (h3 : b3 < 256) (h4 : b4 < 256) (h5 : b5 < 256) (h6 : b6 < 256)
    (h7 : b7 < 256) :
    __bswap_64 (loadWord b0 b1 b2 b3 b4 b5 b6 b7)
        = b0 * 2 ^ 56 + b1 * 2 ^ 48 + b2 * 2 ^ 40 + b3 * 2 ^ 32 + b4 * 2 ^ 24 + b5 * 2 ^ 16
          + b6 * 2 ^ 8 + b7
      ∧ (isHeaderWord (loadWord b0 b1 b2 b3 b4 b5 b6 b7) = true
          ↔ __bswap_64 (loadWord b0 b1 b2 b3 b4 b5 b6 b7) / 2 ^ 56 = 255)
      ∧ (isHeaderWord (loadWord b0 b1 b2 b3 b4 b5 b6 b7) = true ↔ b0 = 255)
      ∧ (hdrOfWord (__bswap_64 (loadWord b0 b1 b2 b3 b4 b5 b6 b7))).roach
          = __bswap_64 (loadWord b0 b1 b2 b3 b4 b5 b6 b7) / 2 ^ 48 % 2 ^ 8
      ∧ (hdrOfWord (__bswap_64 (loadWord b0 b1 b2 b3 b4 b5 b6 b7))).frame
          = __bswap_64 (loadWord b0 b1 b2 b3 b4 b5 b6 b7) / 2 ^ 36 % 2 ^ 12
      ∧ (hdrOfWord (__bswap_64 (loadWord b0 b1 b2 b3 b4 b5 b6 b7))).timestamp
          = __bswap_64 (loadWord b0 b1 b2 b3 b4 b5 b6 b7) % 2 ^ 36
      ∧ hdrOfWord (__bswap_64 (loadWord b0 b1 b2 b3 b4 b5 b6 b7))
          = { start := b0
              roach := b1
              frame := b2 * 16 + b3 / 16
              timestamp := b3 % 16 * 2 ^ 32 + b4 * 2 ^ 24 + b5 * 2 ^ 16 + b6 * 2 ^ 8 + b7 } := by
  have hw := bswap_64_bytes b0 b1 b2 b3 b4 b5 b6 b7 h0 h1 h2 h3 h4 h5 h6 h7
  refine ⟨hw, ?_, ?_, rfl, rfl, rfl, ?_⟩
  · unfold isHeaderWord hdrOfWord
    rw [hw]
    norm_num
    omega
  · unfold isHeaderWord hdrOfWord
    rw [hw]
    norm_num
    omega
  · unfold hdrOfWord
    rw [hw]
    norm_num
    refine ⟨?_, ?_, ?_, ?_⟩ <;> omega

/-- Claim C9, at the wire bytes `FF 2A 12 34 56 78 9A BC`. -/
theorem header_decode_witness :
    hdrOfWord (__bswap_64 (loadWord 255 42 18 52 86 120 154 188))
      = { start := 255
          roach := 42
          frame := 18 * 16 + 52 / 16
          timestamp := 52 % 16 * 2 ^ 32 + 86 * 2 ^ 24 + 120 * 2 ^ 16 + 154 * 2 ^ 8 + 188 } :=
  (header_decode 255 42 18 52 86 120 154 188 (by decide) (by decide) (by decide)
    (by decide) (by decide) (by decide) (by decide) (by decide)).2.2.2.2.2.2

/-- Claim C10: for fields in their ranges the packed 64-bit word is decoded by
`struct datapacket` back to exactly those fields, the wavelength and the baseline
being sign-extended. -/
theorem data_word_round_trip (x y t_sub : Nat) (wavelength_raw baseline_raw : Int)
    (hx : x ≤ 1023) (hy : y ≤ 1023) (ht : t_sub ≤ 511)
    (hwl : -2 ^ 17 ≤ wavelength_raw) (hwu : wavelength_raw ≤ 2 ^ 17 - 1)
    (hbl : -2 ^ 16 ≤ baseline_raw) (hbu : baseline_raw ≤ 2 ^ 16 - 1) :
    packDataWord x y t_sub wavelength_raw baseline_raw < 2 ^ 64 ∧
    dataOfWord (packDataWord x y t_sub wavelength_raw baseline_raw)
      = { xcoord := x, ycoord := y, timestamp := t_sub, wavelength := wavelength_raw,
          baseline := baseline_raw } := by
  unfold packDataWord dataOfWord signedField
  norm_num at *
  obtain ⟨a, ha⟩ : ∃ a : Nat, (wavelength_raw % 262144).toNat = a := ⟨_, rfl⟩
  obtain ⟨b, hb⟩ : ∃ b : Nat, (baseline_raw % 131072).toNat = b := ⟨_, rfl⟩
  have ha' : (a : Int) = wavelength_raw % 262144 := by omega
  have hb' : (b : Int) = baseline_raw % 131072 := by omega
  rw [ha, hb]
  have a_lt : a < 262144 := by omega
  have b_lt : b < 131072 := by omega
  have e1 : (x * 18014398509481984 + y * 17592186044416 + t_sub * 34359738368
      + a * 131072 + b) % 131072 = b := by omega
  have e2 : (x * 18014398509481984 + y * 17592186044416 + t_sub * 34359738368
      + a * 131072 + b) / 131072 % 262144 = a := by omega
  have e3 : (x * 18014398509481984 + y * 17592186044416 + t_sub * 34359738368
      + a * 131072 + b) / 34359738368 % 512 = t_sub := by omega
  have e4 : (x * 18014398509481984 + y * 17592186044416 + t_sub * 34359738368
      + a * 131072 + b) / 17592186044416 % 1024 = y := by omega
  have e5 : (x * 18014398509481984 + y * 17592186044416 + t_sub * 34359738368
      + a * 131072 + b) / 18014398509481984 % 1024 = x := by omega
  rw [e1, e2, e3, e4, e5]
  refine ⟨by omega, ?_⟩
  simp only [datapacket.mk.injEq, and_true]
  constructor <;> split <;> omega

/-- Claim C10, at `x = 3`, `y = 4`, `t_sub = 100` and the negative raw values
`-5` and `-7`. -/
theorem data_word_round_trip_witness :
    packDataWord 3 4 100 (-5) (-7) < 2 ^ 64 ∧
    dataOfWord (packDataWord 3 4 100 (-5) (-7))
      = { xcoord := 3, ycoord := 4, timestamp := 100, wavelength := -5, baseline := -7 } :=
  data_word_round_trip 3 4 100 (-5) (-7) (by decide) (by decide) (by decide) (by decide)
    (by decide) (by decide) (by decide)

/-- Claim C8: at two wraps the code does not recover the true timestamp.  File
second 1516861952, year start 1514764800, true time `T = 4194304000` half-ms and
header value `T - 2*2000*1048576 = 0`: `nWraps` is 2, the `int` product
`2000*2*1048576` does not fit 32 bits, and the header is left at 68618813440. -/
theorem fix_overflow_two_wraps :
    (0 : Int) ≤ 1516861952 - 1514764800 + 3 - ((4194304000 / 2000 : Nat) : Int)
      ∧ (1516861952 : Int) - 1514764800 + 3 - ((4194304000 / 2000 : Nat) : Int) < 1048576
      ∧ 0 + 2 * 2000 * 1048576 = 4194304000
      ∧ nWrapsOf { timestamp := 0, frame := 0, roach := 0, start := 255 }
          1516861952 1514764800 = 2
      ∧ (FixOverflowTimestamps { timestamp := 0, frame := 0, roach := 0, start := 255 }
          1516861952 1514764800).timestamp = 68618813440
      ∧ (FixOverflowTimestamps { timestamp := 0, frame := 0, roach := 0, start := 255 }
          1516861952 1514764800).timestamp ≠ 4194304000 := by
  decide

/-- Claim C7: a packet whose corrected header gives `basetime = timestamp - tstart`
below 0 or at least `2000*nFiles` leaves the photon tables as they were, whatever
its data words; `ParseToMem` changes a counter only when
`0 ≤ basetime < 2000*nFiles`. -/
theorem window_boundary (c : Ctx) (packet : List Nat) (l : Nat) (iFile : Int)
    (st : PhotonTables) (htstart : c.tstart < 2 ^ 63) :
    let timestamp :=
      (FixOverflowTimestamps (hdrOfWord (__bswap_64 (packet.headD 0)))
        (toInt32 (c.FirstFile + iFile)) c.tsOffs).timestamp
    let basetime : Int := (timestamp : Int) - c.tstart
    ((basetime < 0 ∨ basetime ≥ 2000 * c.nFiles) → ParseToMem c packet l iFile st = st)
      ∧ ((∃ x y, (ParseToMem c packet l iFile st).ptablect x y ≠ st.ptablect x y
            ∨ (ParseToMem c packet l iFile st).ptable x y ≠ st.ptable x y)
          → 0 ≤ basetime ∧ basetime < 2000 * c.nFiles) := by
  intro timestamp basetime
  have hb : basetimeOf c iFile (packet.headD 0) = basetime :=
    basetimeOf_eq c iFile (packet.headD 0) htstart
  have key : (basetime < 0 ∨ basetime ≥ 2000 * c.nFiles) → ParseToMem c packet l iFile st = st := by
    intro h
    unfold ParseToMem
    split
    · rfl
    · simp only [hb]
      rw [if_pos h]
  refine ⟨key, ?_⟩
  rintro ⟨x, y, hxy⟩
  by_contra hcon
  have hout : basetime < 0 ∨ basetime ≥ 2000 * c.nFiles := by omega
  rw [key hout] at hxy
  rcases hxy with h | h <;> exact h rfl

/-- Claim C7, at scenario S4: in the call of S2 a packet whose header carries
timestamp 2001 (`basetime = 2000*nFiles + 1`) with one data word changes nothing. -/
theorem window_boundary_witness :
    ParseToMem (callCtx 1514764800 0 beamMapS2 10 10) [hdrWordLate, dataWordS2] 16 0
        (initTables (callCtx 1514764800 0 beamMapS2 10 10).BeamMap 10 10)
      = initTables (callCtx 1514764800 0 beamMapS2 10 10).BeamMap 10 10 :=
  (window_boundary (callCtx 1514764800 0 beamMapS2 10 10) [hdrWordLate, dataWordS2] 16 0
    (initTables (callCtx 1514764800 0 beamMapS2 10 10).BeamMap 10 10) (by decide)).1
    (by decide)

/-! ## Scenarios -/

set_option maxRecDepth 4000

/-- Claim C1 (as stated): in scenario S2 the file is one header word followed by
one data word; no second header follows, the packet is never handed to
`ParseToMem`, and `extract_photons` returns 0 with no photon written, also when
the beam map assigns every cell.  With the one-entry beam map of the scenario
the cleanup loop, moreover, frees the buffer pointers of the 99 cells that were
never allocated. -/
theorem scenario_S2_as_stated :
    hdrOfWord (__bswap_64 hdrWord0) = { start := 255, roach := 0, frame := 0, timestamp := 0 }
      ∧ dataOfWord (__bswap_64 dataWordS2)
          = { xcoord := 3, ycoord := 4, timestamp := 100, wavelength := 16384,
              baseline := 8192 }
      ∧ fileCalls [hdrWord0, dataWordS2] = []
      ∧ extract_photons true (oneFileDir 1514764800 [hdrWord0, dataWordS2]) 1514764800 0
          beamMapS2 10 10 = some { ret := 0, otable := [] }
      ∧ cleanupDefined (buildImage beamMapS2 10 10).1 10 10 = false
      ∧ extract_photons true (oneFileDir 1514764800 [hdrWord0, dataWordS2]) 1514764800 0
          gridS2 10 10 = some { ret := 0, otable := [] }
      ∧ callDefined (oneFileDir 1514764800 [hdrWord0, dataWordS2]) 1514764800 0
          gridS2 10 10 1 = true := by
  decide

/-- Claim C1 (amended): when the file of scenario S2 is closed by a further header
word and the beam map assigns every cell of the 10 x 10 array, its entry for the
cell `(3, 4)` being `(42, 0, 3, 4)`, every step of the call is defined and
`extract_photons` returns 1; the single photon has `resID = 42`, `time = 100`
and the conversions of the raw values 16384 and 8192. -/
theorem scenario_S2_closed_packet :
    gridS2.length = 100
      ∧ gridS2.filter (fun e => decide (e.x = 3) && decide (e.y = 4))
          = [{ resID := 42, flag := 0, x := 3, y := 4 }]
      ∧ cleanupDefined (buildImage gridS2 10 10).1 10 10 = true
      ∧ callDefined (oneFileDir 1514764800 [hdrWord0, dataWordS2, hdrWord0]) 1514764800 0
          gridS2 10 10 1 = true
      ∧ extract_photons true (oneFileDir 1514764800 [hdrWord0, dataWordS2, hdrWord0])
          1514764800 0 gridS2 10 10
        = some { ret := 1
                 otable := [{ resID := 42, time := 100, wavelength := 16384,
                              baseline := 8192 }] } := by
  decide

/-- Claim C2: one leading non-header word changes the result.  The file
`[header, data, header]` gives one photon; the same file after one data word
gives none, because the first loop leaves the word index of the first header in
the byte offset `pstart`, so the first packet is copied from `&data[pstart/8]`,
a word before that header, and `ParseToMem` rejects it. -/
theorem leading_word_loses_first_packet :
    isHeaderWord dataWord00 = false
      ∧ isHeaderWord hdrWord0 = true
      ∧ extract_photons true (oneFileDir 1514764800 [hdrWord0, dataWordS2, hdrWord0])
          1514764800 0 beamMapS2 10 10
        = some { ret := 1
                 otable := [{ resID := 42, time := 100, wavelength := 16384,
                              baseline := 8192 }] }
      ∧ extract_photons true
          (oneFileDir 1514764800 ([dataWord00] ++ [hdrWord0, dataWordS2, hdrWord0]))
          1514764800 0 beamMapS2 10 10
        = some { ret := 0, otable := [] }
      ∧ fileCalls ([dataWord00] ++ [hdrWord0, dataWordS2, hdrWord0])
        = [([dataWord00, hdrWord0, dataWordS2, hdrWord0], 23)] := by
  decide

/-- Claim C5: a beam-map entry whose `resID` is `0xFFFFFFFF` with flag 0 leaves the
initial value in `BeamMap[3][4]` and 0 in `BeamFlag[3][4]`; no buffer is allocated
for the cell, and the data word of the delivered packet is appended to it all the
same: `ptablect[3][4]` ends at 1. -/
theorem sentinel_resID_cell_is_appended :
    (buildImage [{ resID := 4294967295, flag := 0, x := 3, y := 4 }] 10 10).1 3 4
        = beamMapInitVal
      ∧ (buildImage [{ resID := 4294967295, flag := 0, x := 3, y := 4 }] 10 10).2 3 4 = 0
      ∧ (finalTables (oneFileDir 1514764800 [hdrWord0, dataWordS2, hdrWord0]) 1514764800 0
            [{ resID := 4294967295, flag := 0, x := 3, y := 4 }] 10 10).map
          (fun st => (st.ptablect 3 4, st.pcap 3 4, (st.ptable 3 4).length))
        = some (1, 0, 1) := by
  decide

/-- Claim C6 (as stated): with the beam map `[(42, 0, 0, 0)]` and one delivered data
word at pixel `(0, 0)`, the entry is in range and `BeamMap[0][0]` is not the
initial value, the sum of the claim is `ptablect[0][0] = 1`, and the call
returns 0. -/
theorem return_value_omits_origin :
    extract_photons true (oneFileDir 1514764800 [hdrWord0, dataWord00, hdrWord0])
        1514764800 0 [{ resID := 42, flag := 0, x := 0, y := 0 }] 10 10
      = some { ret := 0, otable := [] }
      ∧ (finalTables (oneFileDir 1514764800 [hdrWord0, dataWord00, hdrWord0]) 1514764800 0
            [{ resID := 42, flag := 0, x := 0, y := 0 }] 10 10).map
          (fun st => countSum st
            (fun e => entryInRange 10 10 e
              && decide ((buildImage [{ resID := 42, flag := 0, x := 0, y := 0 }] 10 10).1
                    e.x.toNat e.y.toNat ≠ beamMapInitVal))
            [{ resID := 42, flag := 0, x := 0, y := 0 }])
        = some 1 := by
  decide

/-- Claim C4 (as stated): a delivered in-window data word of a flag-0 pixel can be
missing from the output or appear twice.  At pixel `(0, 0)` with the beam map
`[(42, 0, 0, 0)]` the word is accepted and the output is empty; with the entry of
scenario S2 listed twice the photon of pixel `(3, 4)` is written twice. -/
theorem flag0_event_missing_or_repeated :
    (callCtx 1514764800 0 [{ resID := 42, flag := 0, x := 0, y := 0 }] 10 10).BeamFlag 0 0 = 0
      ∧ pixelEvents (callCtx 1514764800 0 [{ resID := 42, flag := 0, x := 0, y := 0 }] 10 10)
          (dirCalls (callCtx 1514764800 0 [{ resID := 42, flag := 0, x := 0, y := 0 }] 10 10)
            (oneFileDir 1514764800 [hdrWord0, dataWord00, hdrWord0]) (fileIndices 1)) 0 0
        = [{ resID := 42, time := 0, wavelength := 0, baseline := 0 }]
      ∧ extract_photons true (oneFileDir 1514764800 [hdrWord0, dataWord00, hdrWord0])
          1514764800 0 [{ resID := 42, flag := 0, x := 0, y := 0 }] 10 10
        = some { ret := 0, otable := [] }
      ∧ (callCtx 1514764800 0 (beamMapS2 ++ beamMapS2) 10 10).BeamFlag 3 4 = 0
      ∧ pixelEvents (callCtx 1514764800 0 (beamMapS2 ++ beamMapS2) 10 10)
          (dirCalls (callCtx 1514764800 0 (beamMapS2 ++ beamMapS2) 10 10)
            (oneFileDir 1514764800 [hdrWord0, dataWordS2, hdrWord0]) (fileIndices 1)) 3 4
        = [{ resID := 42, time := 100, wavelength := 16384, baseline := 8192 }]
      ∧ extract_photons true (oneFileDir 1514764800 [hdrWord0, dataWordS2, hdrWord0])
          1514764800 0 (beamMapS2 ++ beamMapS2) 10 10
        = some { ret := 2
                 otable := [{ resID := 42, time := 100, wavelength := 16384, baseline := 8192 },
                            { resID := 42, time := 100, wavelength := 16384,
                              baseline := 8192 }] } := by
  decide

/-! ## The accumulator -/

theorem setCell_same {α : Type} (t : Nat → Nat → α) (x y : Nat) (v : α) :
    setCell t x y v x y = v := by
  simp [setCell]

theorem setCell_other {α : Type} (t : Nat → Nat → α) (x y i j : Nat) (v : α)
    (h : ¬(i = x ∧ j = y)) : setCell t x y v i j = t i j := by
  simp [setCell, h]

/-- One loop iteration leaves a cell alone when the cell is out of range, or gated,
or not the one the data word addresses. -/
theorem ingest_blocked (c : Ctx) (b : Int) (st : PhotonTables) (w x y : Nat)
    (h : x ≥ c.beamCols ∨ y ≥ c.beamRows ∨ (c.mapflag > 0 ∧ c.BeamFlag x y > 0)
      ∨ addressedTo x y (b, w) = false) :
    (ingest c b st w).ptable x y = st.ptable x y
      ∧ (ingest c b st w).ptablect x y = st.ptablect x y
      ∧ (ingest c b st w).pcap x y = st.pcap x y := by
  unfold ingest
  simp only
  split_ifs with h1 h2
  · exact ⟨rfl, rfl, rfl⟩
  · exact ⟨rfl, rfl, rfl⟩
  · have hne : ¬(x = (dataOfWord (__bswap_64 w)).xcoord
        ∧ y = (dataOfWord (__bswap_64 w)).ycoord) := by
      rintro ⟨hx, hy⟩
      subst hx hy
      rcases h with h | h | h | h
      · exact h1 (Or.inl h)
      · exact h1 (Or.inr h)
      · exact h2 h
      · simp [addressedTo] at h
    exact ⟨setCell_other _ _ _ _ _ _ hne, setCell_other _ _ _ _ _ _ hne,
      setCell_other _ _ _ _ _ _ hne⟩

/-- One loop iteration on a data word addressed to an in-range cell that is not
gated appends the photon of that word and increments the counter. -/
theorem ingest_admitted (c : Ctx) (b : Int) (st : PhotonTables) (w x y : Nat)
    (hx : x < c.beamCols) (hy : y < c.beamRows)
    (hg : ¬(c.mapflag > 0 ∧ c.BeamFlag x y > 0)) (ha : addressedTo x y (b, w) = true) :
    (ingest c b st w).ptable x y = st.ptable x y ++ [photonOf c (b, w)]
      ∧ (ingest c b st w).ptablect x y = st.ptablect x y + 1 := by
  simp only [addressedTo, Bool.and_eq_true, beq_iff_eq] at ha
  obtain ⟨hax, hay⟩ := ha
  unfold ingest
  simp only
  rw [hax, hay]
  rw [if_neg (by omega), if_neg hg]
  simp [setCell, photonOf, hax, hay]

/-- The data-word loop on an admitted cell appends the photons of the words
addressed to it, in order. -/
theorem foldl_ingest_ptable (c : Ctx) (b : Int) (x y : Nat) (hx : x < c.beamCols)
    (hy : y < c.beamRows) (hg : ¬(c.mapflag > 0 ∧ c.BeamFlag x y > 0)) :
    ∀ (ws : List Nat) (st : PhotonTables),
      (ws.foldl (ingest c b) st).ptable x y
        = st.ptable x y
          ++ ((ws.map (fun w => (b, w))).filter (addressedTo x y)).map (photonOf c) := by
  intro ws
  induction ws with
  | nil => intro st; simp
  | cons w ws ih =>
    intro st
    rw [List.foldl_cons, ih]
    by_cases ha : addressedTo x y (b, w) = true
    · rw [(ingest_admitted c b st w x y hx hy hg ha).1]
      simp [List.filter_cons, ha]
    · have ha' : addressedTo x y (b, w) = false := by simpa using ha
      rw [(ingest_blocked c b st w x y (Or.inr (Or.inr (Or.inr ha')))).1]
      simp [List.filter_cons, ha']

/-- A property of the photon tables kept by every loop iteration is kept by
`ParseToMem`. -/
theorem ParseToMem_preserves (P : PhotonTables → Prop) (c : Ctx)
    (hstep : ∀ b st w, P st → P (ingest c b st w)) (packet : List Nat) (l : Nat)
    (iFile : Int) (st : PhotonTables) (h : P st) : P (ParseToMem c packet l iFile st) := by
  unfold ParseToMem
  dsimp only
  split_ifs
  · exact h
  · exact h
  · generalize ((packet.take (l / 8)).drop 1) = ws
    induction ws generalizing st with
    | nil => exact h
    | cons w ws ih => exact ih _ (hstep _ _ _ h)

/-- A property kept by every loop iteration is kept by a sequence of calls. -/
theorem calls_preserve (P : PhotonTables → Prop) (c : Ctx)
    (hstep : ∀ b st w, P st → P (ingest c b st w)) :
    ∀ (calls : List (Int × List Nat × Nat)) (st : PhotonTables), P st →
      P (calls.foldl (fun s call => ParseToMem c call.2.1 call.2.2 call.1 s) st) := by
  intro calls
  induction calls with
  | nil => intro st h; exact h
  | cons call calls ih =>
    intro st h
    exact ih _ (ParseToMem_preserves P c hstep _ _ _ _ h)

/-- What `ParseToMem` appends to an admitted cell. -/
theorem ParseToMem_ptable (c : Ctx) (x y : Nat) (hx : x < c.beamCols) (hy : y < c.beamRows)
    (hg : ¬(c.mapflag > 0 ∧ c.BeamFlag x y > 0)) (packet : List Nat) (l : Nat) (iFile : Int)
    (st : PhotonTables) :
    (ParseToMem c packet l iFile st).ptable x y
      = st.ptable x y
        ++ ((packetEvents c (iFile, packet, l)).filter (addressedTo x y)).map (photonOf c) := by
  unfold ParseToMem packetEvents
  dsimp only
  split_ifs with h1 h2
  · simp
  · simp
  · exact foldl_ingest_ptable c _ x y hx hy hg _ st

/-- The second loop over a file is the sequence of its calls. -/
theorem parsePackets_eq_foldl (c : Ctx) (iFile : Int) (data : List Nat) :
    ∀ (ws : List Nat) (k pstart : Nat) (st : PhotonTables),
      parsePackets c iFile data ws k pstart st
        = (packetCalls data ws k pstart).foldl (fun s pk => ParseToMem c pk.1 pk.2 iFile s) st := by
  intro ws
  induction ws with
  | nil => intro k pstart st; rfl
  | cons w ws ih =>
    intro k pstart st
    unfold parsePackets packetCalls
    split_ifs
    · rw [ih, List.foldl_cons]
    · rw [ih]

theorem processFile_eq_foldl (c : Ctx) (iFile : Int) (data : List Nat) (st : PhotonTables) :
    processFile c iFile data st
      = ((fileCalls data).map (fun pk => (iFile, pk))).foldl
          (fun s call => ParseToMem c call.2.1 call.2.2 call.1 s) st := by
  unfold processFile fileCalls
  split
  · rfl
  · rw [parsePackets_eq_foldl, List.foldl_map]

/-- The file loop, when it does not fail, is the sequence of its calls. -/
theorem readFiles_eq_foldl (c : Ctx) (dir : Int → Option (List Nat)) (bufSize : Nat) :
    ∀ (is : List Int) (st st' : PhotonTables),
      readFiles c dir bufSize is st = some st' →
      st' = (dirCalls c dir is).foldl
        (fun s call => ParseToMem c call.2.1 call.2.2 call.1 s) st := by
  intro is
  induction is with
  | nil =>
    intro st st' h
    simp only [readFiles, Option.some.injEq] at h
    simp [dirCalls, h]
  | cons i is ih =>
    intro st st' h
    unfold readFiles at h
    unfold dirCalls
    split at h
    · exact ih _ _ h
    · split_ifs at h
      rw [List.foldl_append, ← processFile_eq_foldl]
      exact ih _ _ h

/-- A sequence of calls appends to an admitted cell the photons of the data words
addressed to it, in stream order. -/
theorem calls_ptable (c : Ctx) (x y : Nat) (hx : x < c.beamCols) (hy : y < c.beamRows)
    (hg : ¬(c.mapflag > 0 ∧ c.BeamFlag x y > 0)) :
    ∀ (calls : List (Int × List Nat × Nat)) (st : PhotonTables),
      (calls.foldl (fun s call => ParseToMem c call.2.1 call.2.2 call.1 s) st).ptable x y
        = st.ptable x y ++ pixelEvents c calls x y := by
  intro calls
  induction calls with
  | nil => intro st; simp [pixelEvents, streamEvents]
  | cons call calls ih =>
    intro st
    rw [List.foldl_cons, ih, ParseToMem_ptable c x y hx hy hg]
    simp [pixelEvents, streamEvents]

/-- Every loop iteration keeps each counter equal to the length of its buffer. -/
theorem ingest_count_length (c : Ctx) (b : Int) (st : PhotonTables) (w : Nat)
    (h : ∀ x y, st.ptablect x y = (st.ptable x y).length) :
    ∀ x y, (ingest c b st w).ptablect x y = ((ingest c b st w).ptable x y).length := by
  intro x y
  unfold ingest
  simp only
  split_ifs
  · exact h x y
  · exact h x y
  · simp only [setCell]
    split_ifs
    · simp [h]
    · exact h x y

/-! ## The materializer -/

/-- Entries of a cell whose counter is 0 can be dropped from the entry list: the
loop writes nothing for them. -/
theorem materialize_filter_zero (BeamMap : Table) (st : PhotonTables) (cols rows x y : Nat)
    (h0 : st.ptablect x y = 0) :
    ∀ (es : List BMEntry) (acc : Nat × List photon),
      materialize BeamMap st cols rows es acc
        = materialize BeamMap st cols rows
            (es.filter (fun e => !(decide (e.x = x) && decide (e.y = y)))) acc := by
  intro es
  induction es with
  | nil => intro acc; rfl
  | cons e es ih =>
    intro acc
    by_cases he : e.x = x ∧ e.y = y
    · have hf : (!(decide (e.x = (x : Int)) && decide (e.y = (y : Int)))) = false := by
        simp [he.1, he.2]
      rw [List.filter_cons_of_neg (by simp [he.1, he.2]), ← ih]
      rw [materialize]
      have hx : e.x.toNat = x := by omega
      have hy : e.y.toNat = y := by omega
      split_ifs with h1 h2 h3 h4 h5
      · rfl
      · rfl
      · omega
      · rfl
      · rfl
      · rw [hx, hy] at h5
        exact absurd h0 h5
    · rw [List.filter_cons_of_pos (by simp; tauto)]
      rw [materialize, materialize]
      split_ifs
      · exact ih _
      · exact ih _
      · rfl
      · exact ih _
      · exact ih _
      · exact ih _

/-- The final `nPhot` is the initial one plus the counters of the entries that pass
the first three tests of the loop. -/
theorem materialize_count (BeamMap : Table) (st : PhotonTables) (cols rows : Nat) :
    ∀ (es : List BMEntry) (acc acc' : Nat × List photon),
      materialize BeamMap st cols rows es acc = some acc' →
      acc'.1 = acc.1 + countSum st (entryEmitted BeamMap cols rows) es := by
  intro es
  induction es with
  | nil =>
    intro acc acc' h
    simp only [materialize, Option.some.injEq] at h
    simp [countSum, h]
  | cons e es ih =>
    intro acc acc' h
    rw [materialize] at h
    unfold countSum
    split_ifs at h with h1 h2 h3 h4 h5
    · rw [ih _ _ h]
      simp [entryEmitted, h1.1, h1.2]
    · rw [ih _ _ h]
      have : entryInRange cols rows e = false := by
        simp only [entryInRange, Bool.and_eq_false_iff, decide_eq_false_iff_not]
        rcases h2 with h2 | h2
        · exact Or.inl (Or.inl (Or.inr (by omega)))
        · exact Or.inr (by omega)
      simp [entryEmitted, this]
    · rw [ih _ _ h]
      simp [entryEmitted, h4]
    · rw [ih _ _ h]
      simp [h5]
    · rw [ih _ _ h]
      have hr : entryInRange cols rows e = true := by
        simp only [entryInRange, Bool.and_eq_true, decide_eq_true_eq]
        omega
      have h00 : (decide (e.x = 0) && decide (e.y = 0)) = false := by
        simpa using h1
      simp only [entryEmitted, hr, h00, Bool.not_false, Bool.and_self, Bool.true_and]
      simp [h4]
      omega

theorem entriesEvents_append (BeamMap : Table) (st : PhotonTables) (cols rows : Nat)
    (es fs : List BMEntry) :
    entriesEvents BeamMap st cols rows (es ++ fs)
      = entriesEvents BeamMap st cols rows es ++ entriesEvents BeamMap st cols rows fs := by
  induction es with
  | nil => simp [entriesEvents]
  | cons e es ih => simp [entriesEvents, ih]

/-- When every counter is the length of its buffer, the output is the initial one
followed by the buffers of the entries that pass the first three tests. -/
theorem materialize_events (BeamMap : Table) (st : PhotonTables) (cols rows : Nat)
    (hlen : ∀ x y, st.ptablect x y = (st.ptable x y).length) :
    ∀ (es : List BMEntry) (acc acc' : Nat × List photon),
      acc.1 = acc.2.length →
      materialize BeamMap st cols rows es acc = some acc' →
      acc'.2 = acc.2 ++ entriesEvents BeamMap st cols rows es ∧ acc'.1 = acc'.2.length := by
  intro es
  induction es with
  | nil =>
    intro acc acc' hacc h
    simp only [materialize, Option.some.injEq] at h
    subst h
    simp [entriesEvents, hacc]
  | cons e es ih =>
    intro acc acc' hacc h
    rw [materialize] at h
    unfold entriesEvents entryEvents
    split_ifs at h with h1 h2 h3 h4 h5
    · obtain ⟨ha, hb⟩ := ih _ _ hacc h
      refine ⟨?_, hb⟩
      rw [ha]
      simp [entryEmitted, h1.1, h1.2]
    · have hr : entryInRange cols rows e = false := by
        simp only [entryInRange, Bool.and_eq_false_iff, decide_eq_false_iff_not]
        rcases h2 with h2 | h2
        · exact Or.inl (Or.inl (Or.inr (by omega)))
        · exact Or.inr (by omega)
      obtain ⟨ha, hb⟩ := ih _ _ hacc h
      refine ⟨?_, hb⟩
      rw [ha]
      simp [entryEmitted, hr]
    · obtain ⟨ha, hb⟩ := ih _ _ hacc h
      refine ⟨?_, hb⟩
      rw [ha]
      simp [entryEmitted, h4]
    · obtain ⟨ha, hb⟩ := ih _ _ hacc h
      refine ⟨?_, hb⟩
      rw [ha]
      have hnil : st.ptable e.x.toNat e.y.toNat = [] := by
        have := hlen e.x.toNat e.y.toNat
        rw [h5] at this
        exact List.length_eq_zero.mp this.symm
      simp [hnil]
    · have hr : entryInRange cols rows e = true := by
        simp only [entryInRange, Bool.and_eq_true, decide_eq_true_eq]
        omega
      have h00 : (decide (e.x = 0) && decide (e.y = 0)) = false := by
        simpa using h1
      have hem : entryEmitted BeamMap cols rows e = true := by
        simp only [entryEmitted, hr, h00, Bool.not_false, Bool.and_self, Bool.true_and]
        simp [h4]
      have hacc2 : (acc.1 + st.ptablect e.x.toNat e.y.toNat,
          acc.2.take acc.1
            ++ (st.ptable e.x.toNat e.y.toNat).take (st.ptablect e.x.toNat e.y.toNat)).1
          = (acc.1 + st.ptablect e.x.toNat e.y.toNat,
          acc.2.take acc.1
            ++ (st.ptable e.x.toNat e.y.toNat).take
                (st.ptablect e.x.toNat e.y.toNat)).2.length := by
        simp [hacc, hlen]
      obtain ⟨ha, hb⟩ := ih _ _ hacc2 h
      refine ⟨?_, hb⟩
      rw [ha]
      simp [hem, hacc, hlen]

/-- Emptying the buffer of a cell does not change what is copied for entries of
other cells. -/
theorem entriesEvents_clear (BeamMap : Table) (st : PhotonTables) (cols rows x y : Nat) :
    ∀ (es : List BMEntry), (∀ e ∈ es, ¬(e.x = x ∧ e.y = y)) →
      entriesEvents BeamMap { st with ptable := setCell st.ptable x y [] } cols rows es
        = entriesEvents BeamMap st cols rows es := by
  intro es
  induction es with
  | nil => intro _; rfl
  | cons e es ih =>
    intro h
    unfold entriesEvents
    rw [ih (fun e' he' => h e' (List.mem_cons_of_mem _ he'))]
    congr 1
    unfold entryEvents
    split_ifs with hem
    · have hne := h e (List.mem_cons_self _ _)
      simp only [entryEmitted, entryInRange, Bool.and_eq_true, decide_eq_true_eq] at hem
      apply setCell_other
      rintro ⟨hx, hy⟩
      apply hne
      omega
    · rfl

/-! ## Gating, totals and completeness -/

theorem initTables_count_length (BeamMap : Table) (cols rows : Nat) :
    ∀ x y, (initTables BeamMap cols rows).ptablect x y
      = ((initTables BeamMap cols rows).ptable x y).length := by
  intro x y
  rfl

/-- The final tables are the tables of the sequence of all calls. -/
theorem finalTables_eq (dir : Int → Option (List Nat)) (start_timestamp integration_time : Nat)
    (DiskBeamMap : List BMEntry) (bmap_ncol bmap_nrow : Nat) (st : PhotonTables)
    (h : finalTables dir start_timestamp integration_time DiskBeamMap bmap_ncol bmap_nrow
      = some st) :
    st = (dirCalls (callCtx start_timestamp integration_time DiskBeamMap bmap_ncol bmap_nrow) dir
          (fileIndices (toUInt32 (integration_time + 1)))).foldl
        (fun s call =>
          ParseToMem (callCtx start_timestamp integration_time DiskBeamMap bmap_ncol bmap_nrow)
            call.2.1 call.2.2 call.1 s)
        (initTables (callCtx start_timestamp integration_time DiskBeamMap bmap_ncol
          bmap_nrow).BeamMap bmap_ncol bmap_nrow) :=
  readFiles_eq_foldl _ dir _ _ _ _ h

/-- Claim C3: for a pixel whose `BeamFlag` is greater than 0 in the built image,
`ParseToMem` (with `mapflag = 1`) never changes the buffer or the counter of the
pixel; at the end of the file loop the buffer is empty and the counter 0, and the
materialisation loop writes the same output when the entries of the pixel are
removed from the list, so no event of the pixel is in the output.  A call of
`ParseToMem` changes the buffer or the counter of a cell only if
`x < beamCols`, `y < beamRows` and `BeamFlag[x][y] == 0`. -/
theorem gating (dir : Int → Option (List Nat)) (start_timestamp integration_time : Nat)
    (DiskBeamMap : List BMEntry) (bmap_ncol bmap_nrow x y : Nat)
    (hflag : (buildImage DiskBeamMap bmap_ncol bmap_nrow).2 x y > 0) :
    (∀ packet l iFile st,
        (ParseToMem (callCtx start_timestamp integration_time DiskBeamMap bmap_ncol bmap_nrow)
            packet l iFile st).ptable x y = st.ptable x y
          ∧ (ParseToMem (callCtx start_timestamp integration_time DiskBeamMap bmap_ncol bmap_nrow)
            packet l iFile st).ptablect x y = st.ptablect x y)
      ∧ (∀ st,
          finalTables dir start_timestamp integration_time DiskBeamMap bmap_ncol bmap_nrow
            = some st →
          st.ptable x y = [] ∧ st.ptablect x y = 0
            ∧ materialize (buildImage DiskBeamMap bmap_ncol bmap_nrow).1 st bmap_ncol bmap_nrow
                DiskBeamMap (0, [])
              = materialize (buildImage DiskBeamMap bmap_ncol bmap_nrow).1 st bmap_ncol bmap_nrow
                  (DiskBeamMap.filter (fun e => !(decide (e.x = x) && decide (e.y = y))))
                  (0, []))
      ∧ (∀ packet l iFile st i j,
          ((ParseToMem (callCtx start_timestamp integration_time DiskBeamMap bmap_ncol bmap_nrow)
              packet l iFile st).ptable i j ≠ st.ptable i j
            ∨ (ParseToMem (callCtx start_timestamp integration_time DiskBeamMap bmap_ncol
              bmap_nrow) packet l iFile st).ptablect i j ≠ st.ptablect i j) →
          i < bmap_ncol ∧ j < bmap_nrow
            ∧ (buildImage DiskBeamMap bmap_ncol bmap_nrow).2 i j = 0) := by
  have hm : (callCtx start_timestamp integration_time DiskBeamMap bmap_ncol bmap_nrow).mapflag
      > 0 := by
    show (1 : Int) > 0
    decide
  have hblocked : ∀ i j : Nat,
      (i ≥ bmap_ncol ∨ j ≥ bmap_nrow ∨ (buildImage DiskBeamMap bmap_ncol bmap_nrow).2 i j > 0) →
      ∀ (st0 : PhotonTables) b st w,
        (st.ptable i j = st0.ptable i j ∧ st.ptablect i j = st0.ptablect i j) →
        ((ingest (callCtx start_timestamp integration_time DiskBeamMap bmap_ncol bmap_nrow)
            b st w).ptable i j = st0.ptable i j
          ∧ (ingest (callCtx start_timestamp integration_time DiskBeamMap bmap_ncol bmap_nrow)
            b st w).ptablect i j = st0.ptablect i j) := by
    intro i j hij st0 b st w hst
    have hb := ingest_blocked
      (callCtx start_timestamp integration_time DiskBeamMap bmap_ncol bmap_nrow) b st w i j
      (by
        rcases hij with h | h | h
        · exact Or.inl h
        · exact Or.inr (Or.inl h)
        · exact Or.inr (Or.inr (Or.inl ⟨hm, h⟩)))
    exact ⟨hb.1.trans hst.1, hb.2.1.trans hst.2⟩
  refine ⟨?_, ?_, ?_⟩
  · intro packet l iFile st
    exact ParseToMem_preserves
      (fun s => s.ptable x y = st.ptable x y ∧ s.ptablect x y = st.ptablect x y) _
      (hblocked x y (Or.inr (Or.inr hflag)) st) packet l iFile st ⟨rfl, rfl⟩
  · intro st hst
    have hfin := finalTables_eq dir start_timestamp integration_time DiskBeamMap bmap_ncol
      bmap_nrow st hst
    have hkeep := calls_preserve
      (fun s => s.ptable x y = [] ∧ s.ptablect x y = 0)
      (callCtx start_timestamp integration_time DiskBeamMap bmap_ncol bmap_nrow)
      (hblocked x y (Or.inr (Or.inr hflag))
        (initTables (callCtx start_timestamp integration_time DiskBeamMap bmap_ncol
          bmap_nrow).BeamMap bmap_ncol bmap_nrow))
      (dirCalls (callCtx start_timestamp integration_time DiskBeamMap bmap_ncol bmap_nrow) dir
        (fileIndices (toUInt32 (integration_time + 1))))
      (initTables (callCtx start_timestamp integration_time DiskBeamMap bmap_ncol
        bmap_nrow).BeamMap bmap_ncol bmap_nrow) ⟨rfl, rfl⟩
    rw [← hfin] at hkeep
    exact ⟨hkeep.1, hkeep.2, materialize_filter_zero _ st _ _ x y hkeep.2 _ _⟩
  · intro packet l iFile st i j hchg
    by_contra hcon
    have hij : i ≥ bmap_ncol ∨ j ≥ bmap_nrow
        ∨ (buildImage DiskBeamMap bmap_ncol bmap_nrow).2 i j > 0 := by
      by_cases h1 : i < bmap_ncol
      · by_cases h2 : j < bmap_nrow
        · right; right
          by_contra h3
          exact hcon ⟨h1, h2, by omega⟩
        · right; left; omega
      · left; omega
    have := ParseToMem_preserves
      (fun s => s.ptable i j = st.ptable i j ∧ s.ptablect i j = st.ptablect i j) _
      (hblocked i j hij st) packet l iFile st ⟨rfl, rfl⟩
    rcases hchg with h | h
    · exact h this.1
    · exact h this.2

/-- Claim C3, at scenario S3: the entry of pixel `(3, 4)` has flag 1, and
`ParseToMem` on the packet with the data word of that pixel leaves its buffer and
its counter as they were. -/
theorem gating_witness :
    (buildImage beamMapS3 10 10).2 3 4 > 0
      ∧ (ParseToMem (callCtx 1514764800 0 beamMapS3 10 10) [hdrWord0, dataWordS2] 16 0
            (initTables (buildImage beamMapS3 10 10).1 10 10)).ptable 3 4
          = (initTables (buildImage beamMapS3 10 10).1 10 10).ptable 3 4
      ∧ (ParseToMem (callCtx 1514764800 0 beamMapS3 10 10) [hdrWord0, dataWordS2] 16 0
            (initTables (buildImage beamMapS3 10 10).1 10 10)).ptablect 3 4
          = (initTables (buildImage beamMapS3 10 10).1 10 10).ptablect 3 4 :=
  ⟨by decide,
    (gating (oneFileDir 1514764800 [hdrWord0, dataWordS2, hdrWord0]) 1514764800 0 beamMapS3
      10 10 3 4 (by decide)).1 [hdrWord0, dataWordS2] 16 0
      (initTables (buildImage beamMapS3 10 10).1 10 10)⟩

/-- Claim C6 (amended): the value returned by a successful `extract_photons` is the
sum of `ptablect[x][y]` over the beam-map entries, one term per entry, whose
`(x, y)` is in range and not `(0, 0)` and whose `BeamMap[x][y]` is not the initial
value `0xFFFFFFFF`. -/
theorem return_value_is_emitted_sum (dirExists : Bool) (dir : Int → Option (List Nat))
    (start_timestamp integration_time : Nat) (DiskBeamMap : List BMEntry)
    (bmap_ncol bmap_nrow : Nat) (r : ExtractResult)
    (hr : extract_photons dirExists dir start_timestamp integration_time DiskBeamMap
      bmap_ncol bmap_nrow = some r)
    (hok : r.ret ≠ -1) :
    ∃ st,
      finalTables dir start_timestamp integration_time DiskBeamMap bmap_ncol bmap_nrow = some st
        ∧ r.ret = (countSum st
            (entryEmitted (buildImage DiskBeamMap bmap_ncol bmap_nrow).1 bmap_ncol bmap_nrow)
            DiskBeamMap : Nat) := by
  unfold extract_photons at hr
  dsimp only at hr
  split_ifs at hr with h1 h2
  · simp only [Option.some.injEq] at hr
    subst hr
    exact absurd rfl hok
  · simp only [Option.some.injEq] at hr
    subst hr
    exact absurd rfl hok
  · split at hr
    · simp only [Option.some.injEq] at hr
      subst hr
      exact absurd rfl hok
    · rename_i st hst
      refine ⟨st, hst, ?_⟩
      split at hr
      · exact absurd hr (by simp)
      · rename_i acc hacc
        simp only [Option.some.injEq] at hr
        subst hr
        have := materialize_count _ st _ _ _ _ _ hacc
        simp only at this
        show ((acc.1 : Nat) : Int) = _
        rw [this]
        simp
        rfl

/-- Claim C6 (amended), at scenario S2 closed by a header word: the call returns 1,
the counter of the single emitted entry. -/
theorem return_value_is_emitted_sum_witness :
    ∃ st,
      finalTables (oneFileDir 1514764800 [hdrWord0, dataWordS2, hdrWord0]) 1514764800 0
          beamMapS2 10 10 = some st
        ∧ (1 : Int) = (countSum st (entryEmitted (buildImage beamMapS2 10 10).1 10 10)
            beamMapS2 : Nat) :=
  return_value_is_emitted_sum true (oneFileDir 1514764800 [hdrWord0, dataWordS2, hdrWord0])
    1514764800 0 beamMapS2 10 10
    { ret := 1, otable := [{ resID := 42, time := 100, wavelength := 16384, baseline := 8192 }] }
    (by decide) (by decide)

/-- Claim C4 (amended): for a pixel `(x, y)` in range and other than `(0, 0)`, with
stored flag 0 and a `BeamMap` value other than the initial one, that exactly one
beam-map entry addresses, every data word addressed to `(x, y)` in a delivered
packet with in-window basetime appears exactly once in the output of a
successful `extract_photons`: the output is the output for the same tables with
the buffer of the pixel emptied, with the photons of these data words, in stream
order, inserted at the place of that entry. -/
theorem flag0_pixel_events_once (dirExists : Bool) (dir : Int → Option (List Nat))
    (start_timestamp integration_time : Nat) (pre post : List BMEntry) (e : BMEntry)
    (bmap_ncol bmap_nrow x y : Nat) (r : ExtractResult)
    (hx : x < bmap_ncol) (hy : y < bmap_nrow) (h00 : ¬(x = 0 ∧ y = 0))
    (hflag : (buildImage (pre ++ e :: post) bmap_ncol bmap_nrow).2 x y = 0)
    (hmap : (buildImage (pre ++ e :: post) bmap_ncol bmap_nrow).1 x y ≠ beamMapInitVal)
    (hex : e.x = x) (hey : e.y = y)
    (hpre : ∀ f ∈ pre, ¬(f.x = x ∧ f.y = y))
    (hpost : ∀ f ∈ post, ¬(f.x = x ∧ f.y = y))
    (hr : extract_photons dirExists dir start_timestamp integration_time (pre ++ e :: post)
      bmap_ncol bmap_nrow = some r)
    (hok : r.ret ≠ -1) :
    ∃ st,
      finalTables dir start_timestamp integration_time (pre ++ e :: post) bmap_ncol bmap_nrow
          = some st
        ∧ r.otable
          = entriesEvents (buildImage (pre ++ e :: post) bmap_ncol bmap_nrow).1
              { st with ptable := setCell st.ptable x y [] } bmap_ncol bmap_nrow pre
            ++ pixelEvents
                (callCtx start_timestamp integration_time (pre ++ e :: post) bmap_ncol bmap_nrow)
                (dirCalls
                  (callCtx start_timestamp integration_time (pre ++ e :: post) bmap_ncol
                    bmap_nrow)
                  dir (fileIndices (toUInt32 (integration_time + 1)))) x y
            ++ entriesEvents (buildImage (pre ++ e :: post) bmap_ncol bmap_nrow).1
              { st with ptable := setCell st.ptable x y [] } bmap_ncol bmap_nrow post := by
  unfold extract_photons at hr
  dsimp only at hr
  split_ifs at hr with h1 h2
  · simp only [Option.some.injEq] at hr
    subst hr
    exact absurd rfl hok
  · simp only [Option.some.injEq] at hr
    subst hr
    exact absurd rfl hok
  · split at hr
    · simp only [Option.some.injEq] at hr
      subst hr
      exact absurd rfl hok
    · rename_i st hst
      refine ⟨st, hst, ?_⟩
      split at hr
      · exact absurd hr (by simp)
      · rename_i acc hacc
        simp only [Option.some.injEq] at hr
        subst hr
        have hfin := finalTables_eq dir start_timestamp integration_time (pre ++ e :: post)
          bmap_ncol bmap_nrow st hst
        have hlen : ∀ i j, st.ptablect i j = (st.ptable i j).length := by
          rw [hfin]
          exact calls_preserve (fun s => ∀ i j, s.ptablect i j = (s.ptable i j).length) _
            (fun b s w hs => ingest_count_length _ b s w hs) _ _
            (initTables_count_length _ _ _)
        have hbuf : st.ptable x y
            = pixelEvents
                (callCtx start_timestamp integration_time (pre ++ e :: post) bmap_ncol bmap_nrow)
                (dirCalls
                  (callCtx start_timestamp integration_time (pre ++ e :: post) bmap_ncol
                    bmap_nrow)
                  dir (fileIndices (toUInt32 (integration_time + 1)))) x y := by
          have hg : ¬((callCtx start_timestamp integration_time (pre ++ e :: post) bmap_ncol
                bmap_nrow).mapflag > 0
              ∧ (callCtx start_timestamp integration_time (pre ++ e :: post) bmap_ncol
                bmap_nrow).BeamFlag x y > 0) := by
            rintro ⟨_, hpos⟩
            have : (buildImage (pre ++ e :: post) bmap_ncol bmap_nrow).2 x y > 0 := hpos
            omega
          have := calls_ptable
            (callCtx start_timestamp integration_time (pre ++ e :: post) bmap_ncol bmap_nrow)
            x y hx hy hg
            (dirCalls
              (callCtx start_timestamp integration_time (pre ++ e :: post) bmap_ncol bmap_nrow)
              dir (fileIndices (toUInt32 (integration_time + 1))))
            (initTables (callCtx start_timestamp integration_time (pre ++ e :: post) bmap_ncol
              bmap_nrow).BeamMap bmap_ncol bmap_nrow)
          rw [← hfin] at this
          rw [this]
          simp [initTables]
        have hctx : (callCtx start_timestamp integration_time (pre ++ e :: post) bmap_ncol
            bmap_nrow).BeamMap = (buildImage (pre ++ e :: post) bmap_ncol bmap_nrow).1 := rfl
        rw [hctx] at hacc
        have hev := (materialize_events _ st _ _ hlen _ _ _ rfl hacc).1
        have hxn : e.x.toNat = x := by omega
        have hyn : e.y.toNat = y := by omega
        have hem : entryEmitted (buildImage (pre ++ e :: post) bmap_ncol bmap_nrow).1
            bmap_ncol bmap_nrow e = true := by
          have hr : entryInRange bmap_ncol bmap_nrow e = true := by
            simp only [entryInRange, Bool.and_eq_true, decide_eq_true_eq]
            omega
          have h0 : (decide (e.x = 0) && decide (e.y = 0)) = false := by
            simp only [Bool.and_eq_false_iff, decide_eq_false_iff_not]
            by_contra hc
            apply h00
            omega
          simp only [entryEmitted, hr, h0, Bool.not_false, Bool.and_self, Bool.true_and]
          rw [hxn, hyn]
          simpa using hmap
        show acc.2 = _
        rw [hev, entriesEvents_append, entriesEvents_clear _ st _ _ x y pre hpre,
          entriesEvents_clear _ st _ _ x y post hpost]
        simp only [entriesEvents, entryEvents, hem, if_true, hxn, hyn, hbuf, List.nil_append,
          List.append_assoc]

/-- Claim C4 (amended), at scenario S2 closed by a header word, for pixel
`(3, 4)` and its single entry. -/
theorem flag0_pixel_events_once_witness :
    ∃ st,
      finalTables (oneFileDir 1514764800 [hdrWord0, dataWordS2, hdrWord0]) 1514764800 0
          ([] ++ { resID := 42, flag := 0, x := 3, y := 4 } :: []) 10 10 = some st
        ∧ [({ resID := 42, time := 100, wavelength := 16384, baseline := 8192 } : photon)]
          = entriesEvents
              (buildImage ([] ++ { resID := 42, flag := 0, x := 3, y := 4 } :: []) 10 10).1
              { st with ptable := setCell st.ptable 3 4 [] } 10 10 []
            ++ pixelEvents
                (callCtx 1514764800 0 ([] ++ { resID := 42, flag := 0, x := 3, y := 4 } :: [])
                  10 10)
                (dirCalls
                  (callCtx 1514764800 0
                    ([] ++ { resID := 42, flag := 0, x := 3, y := 4 } :: []) 10 10)
                  (oneFileDir 1514764800 [hdrWord0, dataWordS2, hdrWord0])
                  (fileIndices (toUInt32 (0 + 1)))) 3 4
            ++ entriesEvents
              (buildImage ([] ++ { resID := 42, flag := 0, x := 3, y := 4 } :: []) 10 10).1
              { st with ptable := setCell st.ptable 3 4 [] } 10 10 [] :=
  flag0_pixel_events_once true (oneFileDir 1514764800 [hdrWord0, dataWordS2, hdrWord0])
    1514764800 0 [] [] { resID := 42, flag := 0, x := 3, y := 4 } 10 10 3 4
    { ret := 1, otable := [{ resID := 42, time := 100, wavelength := 16384, baseline := 8192 }] }
    (by decide) (by decide) (by decide) (by decide) (by decide) (by decide) (by decide)
    (by simp) (by simp) (by decide) (by decide)

/-! ## Capacity and event time -/

/-- Every loop iteration keeps the number of slots of a buffer equal to
`capacityAfter` of its counter. -/
theorem ingest_pcap (c : Ctx) (b : Int) (st : PhotonTables) (w x y : Nat)
    (h : st.pcap x y = capacityAfter (st.ptablect x y)) :
    (ingest c b st w).pcap x y = capacityAfter ((ingest c b st w).ptablect x y) := by
  unfold ingest
  dsimp only
  split_ifs with h1 h2
  · exact h
  · exact h
  · simp only [setCell]
    split_ifs with h3
    · obtain ⟨hx, hy⟩ := h3
      subst hx hy
      rw [h]
      rfl
    · exact h

/-- Claim C19: for `nFiles` in `[1, 1800]`, a packet with
`0 ≤ basetime < 2000*nFiles` and a data word that is appended (its cell is in
range and not gated), the sub-timestamp is at most 511, `basetime*500 + t_sub` is
below 2^32, and the photon appended to the buffer of the cell has that value as
its `time` and `BeamMap[x][y]` as its `resID`. -/
theorem event_time_exact (c : Ctx) (b : Int) (st : PhotonTables) (w : Nat)
    (hn1 : 1 ≤ c.nFiles) (hn2 : c.nFiles ≤ 1800) (hb0 : 0 ≤ b) (hb1 : b < 2000 * c.nFiles)
    (hx : (dataOfWord (__bswap_64 w)).xcoord < c.beamCols)
    (hy : (dataOfWord (__bswap_64 w)).ycoord < c.beamRows)
    (hg : ¬(c.mapflag > 0
      ∧ c.BeamFlag (dataOfWord (__bswap_64 w)).xcoord (dataOfWord (__bswap_64 w)).ycoord > 0)) :
    (dataOfWord (__bswap_64 w)).timestamp ≤ 511
      ∧ b * 500 + (dataOfWord (__bswap_64 w)).timestamp < 2 ^ 32
      ∧ (ingest c b st w).ptable (dataOfWord (__bswap_64 w)).xcoord
            (dataOfWord (__bswap_64 w)).ycoord
          = st.ptable (dataOfWord (__bswap_64 w)).xcoord (dataOfWord (__bswap_64 w)).ycoord
            ++ [{ resID := c.BeamMap (dataOfWord (__bswap_64 w)).xcoord
                    (dataOfWord (__bswap_64 w)).ycoord
                  time := (b * 500 + (dataOfWord (__bswap_64 w)).timestamp).toNat
                  wavelength := (dataOfWord (__bswap_64 w)).wavelength
                  baseline := (dataOfWord (__bswap_64 w)).baseline }] := by
  have ht : (dataOfWord (__bswap_64 w)).timestamp ≤ 511 := by
    simp only [dataOfWord]
    omega
  have hlt : b * 500 + (dataOfWord (__bswap_64 w)).timestamp < 2 ^ 32 := by
    norm_num
    omega
  refine ⟨ht, hlt, ?_⟩
  have ha : addressedTo (dataOfWord (__bswap_64 w)).xcoord (dataOfWord (__bswap_64 w)).ycoord
      (b, w) = true := by
    simp [addressedTo]
  rw [(ingest_admitted c b st w _ _ hx hy hg ha).1]
  have : toUInt32 (b * 500 + (dataOfWord (__bswap_64 w)).timestamp)
      = (b * 500 + (dataOfWord (__bswap_64 w)).timestamp).toNat := by
    unfold toUInt32
    norm_num at hlt
    congr 1
    omega
  simp only [photonOf, this]

/-- Claim C19, at the data word of scenario S2 in a packet of basetime 1999, the
last half-millisecond of a one-file window. -/
theorem event_time_exact_witness :
    (dataOfWord (__bswap_64 dataWordS2)).timestamp ≤ 511
      ∧ (1999 : Int) * 500 + (dataOfWord (__bswap_64 dataWordS2)).timestamp < 2 ^ 32
      ∧ (ingest (callCtx 1514764800 0 beamMapS2 10 10) 1999
            (initTables (buildImage beamMapS2 10 10).1 10 10) dataWordS2).ptable
            (dataOfWord (__bswap_64 dataWordS2)).xcoord
            (dataOfWord (__bswap_64 dataWordS2)).ycoord
          = (initTables (buildImage beamMapS2 10 10).1 10 10).ptable
              (dataOfWord (__bswap_64 dataWordS2)).xcoord
              (dataOfWord (__bswap_64 dataWordS2)).ycoord
            ++ [{ resID := (callCtx 1514764800 0 beamMapS2 10 10).BeamMap
                    (dataOfWord (__bswap_64 dataWordS2)).xcoord
                    (dataOfWord (__bswap_64 dataWordS2)).ycoord
                  time := ((1999 : Int) * 500
                    + (dataOfWord (__bswap_64 dataWordS2)).timestamp).toNat
                  wavelength := (dataOfWord (__bswap_64 dataWordS2)).wavelength
                  baseline := (dataOfWord (__bswap_64 dataWordS2)).baseline }] :=
  event_time_exact (callCtx 1514764800 0 beamMapS2 10 10) 1999
    (initTables (buildImage beamMapS2 10 10).1 10 10) dataWordS2
    (by decide) (by decide) (by decide) (by decide) (by decide) (by decide) (by decide)

/-! ## Narrowing conversions -/

/-- What `PopulateBeamMapImage` leaves in a cell within the `int` bounds: the
values of the last entry whose coordinates, read into the `int` locals, are
those of the cell, and the previous content when there is no such entry. -/
theorem PopulateBeamMapImage_cell (cols rows : Int) (x y : Nat) (hx : (x : Int) < cols)
    (hy : (y : Int) < rows) :
    ∀ (es : List BMEntry) (img : Table × Table),
      (PopulateBeamMapImage es img cols rows).1 x y
          = (match lastEntryAt x y es with
              | none => img.1 x y
              | some e => toUInt32 (toInt32 e.resID))
        ∧ (PopulateBeamMapImage es img cols rows).2 x y
          = (match lastEntryAt x y es with
              | none => img.2 x y
              | some e => if toInt32 e.flag > 1 then 2 else toUInt32 (toInt32 e.flag)) := by
  intro es
  induction es with
  | nil => intro img; exact ⟨rfl, rfl⟩
  | cons e es ih =>
    intro img
    by_cases hat : toInt32 e.x = x ∧ toInt32 e.y = y
    · have hstep : PopulateBeamMapImage (e :: es) img cols rows
          = PopulateBeamMapImage es
              (setCell img.1 x y (toUInt32 (toInt32 e.resID)),
               setCell img.2 x y (if toInt32 e.flag > 1 then 2 else toUInt32 (toInt32 e.flag)))
              cols rows := by
        rw [PopulateBeamMapImage]
        rw [if_neg (by omega), if_neg (by omega)]
        have e1 : (toInt32 e.x).toNat = x := by omega
        have e2 : (toInt32 e.y).toNat = y := by omega
        rw [e1, e2]
      rw [hstep, (ih _).1, (ih _).2]
      simp only [lastEntryAt]
      cases h : lastEntryAt x y es
      · simp [hat, setCell]
      · simp
    · have hstep : (PopulateBeamMapImage (e :: es) img cols rows).1 x y
            = (match lastEntryAt x y es with
                | none => img.1 x y
                | some e => toUInt32 (toInt32 e.resID))
          ∧ (PopulateBeamMapImage (e :: es) img cols rows).2 x y
            = (match lastEntryAt x y es with
                | none => img.2 x y
                | some e => if toInt32 e.flag > 1 then 2 else toUInt32 (toInt32 e.flag)) := by
        rw [PopulateBeamMapImage]
        by_cases h1 : toInt32 e.x < 0 ∨ toInt32 e.x ≥ cols
        · rw [if_pos h1]
          exact ih img
        · rw [if_neg h1]
          by_cases h2 : toInt32 e.y < 0 ∨ toInt32 e.y ≥ rows
          · rw [if_pos h2]
            exact ih img
          · rw [if_neg h2]
            have hne : ¬(x = (toInt32 e.x).toNat ∧ y = (toInt32 e.y).toNat) := by
              rintro ⟨e1, e2⟩
              apply hat
              omega
            rw [(ih _).1, (ih _).2]
            cases h : lastEntryAt x y es
            · simp [setCell, hne]
            · simp
      rw [hstep.1, hstep.2]
      simp only [lastEntryAt]
      cases h : lastEntryAt x y es
      · simp [hat]
      · simp

/-- When the numbers of columns and rows fit `int`, a cell of the built image
holds the values of the last entry whose `int` coordinates are those of the
cell, and the initial values `0xFFFFFFFF` and 1 when there is none. -/
theorem buildImage_cell (DiskBeamMap : List BMEntry) (beamCols beamRows x y : Nat)
    (hc : beamCols < 2147483648) (hr : beamRows < 2147483648) (hx : x < beamCols)
    (hy : y < beamRows) :
    (buildImage DiskBeamMap beamCols beamRows).1 x y
        = (match lastEntryAt x y DiskBeamMap with
            | none => beamMapInitVal
            | some e => toUInt32 (toInt32 e.resID))
      ∧ (buildImage DiskBeamMap beamCols beamRows).2 x y
        = (match lastEntryAt x y DiskBeamMap with
            | none => 1
            | some e => if toInt32 e.flag > 1 then 2 else toUInt32 (toInt32 e.flag)) := by
  have hcc : toInt32 beamCols = beamCols := toInt32_of_range _ (by omega) (by omega)
  have hrr : toInt32 beamRows = beamRows := toInt32_of_range _ (by omega) (by omega)
  have h := PopulateBeamMapImage_cell (toInt32 beamCols) (toInt32 beamRows) x y
    (by rw [hcc]; exact_mod_cast hx) (by rw [hrr]; exact_mod_cast hy) DiskBeamMap
    (InitializeBeamMap (fun _ _ => 0) beamMapInitVal beamCols beamRows,
     InitializeBeamMap (fun _ _ => 0) 1 beamCols beamRows)
  unfold buildImage
  rw [h.1, h.2]
  simp [InitializeBeamMap, hx, hy]

/-- Claim C11: the entry `(resID 7, flag 0, x = 4294967299, y = 4)` has
`x ≥ beamCols = 10`, and no entry has the coordinates `(3, 4)`; all the same
`PopulateBeamMapImage` reads `x` into an `int`, where it is 3, and writes the
cell: `BeamMap[3][4]` is 7, not `0xFFFFFFFF`, and `BeamFlag[3][4]` is 0, not 1.
The materialisation loop, which reads `x` as `long`, skips the same entry. -/
theorem out_of_range_entry_writes_cell :
    (4294967299 : Int) ≥ ((10 : Nat) : Int)
      ∧ toInt32 4294967299 = 3
      ∧ (buildImage [] 10 10).1 3 4 = beamMapInitVal
      ∧ (buildImage [] 10 10).2 3 4 = 1
      ∧ (buildImage [{ resID := 7, flag := 0, x := 4294967299, y := 4 }] 10 10).1 3 4 = 7
      ∧ (buildImage [{ resID := 7, flag := 0, x := 4294967299, y := 4 }] 10 10).2 3 4 = 0
      ∧ (finalTables (oneFileDir 1514764800 [hdrWord0, dataWordS2, hdrWord0]) 1514764800 0
            [{ resID := 7, flag := 0, x := 4294967299, y := 4 }] 10 10).map
          (fun st => st.ptablect 3 4) = some 1
      ∧ extract_photons true (oneFileDir 1514764800 [hdrWord0, dataWordS2, hdrWord0])
          1514764800 0 [{ resID := 7, flag := 0, x := 4294967299, y := 4 }] 10 10
        = some { ret := 0, otable := [] } := by
  decide

/-- Claim C12: the entry `(resID 7, flag = 4294967296, x = 3, y = 4)` is in bounds
and its flag is greater than 1, but `PopulateBeamMapImage` reads the flag into an
`int`, where it is 0, and stores 0, not 2; the pixel then passes the gate.  The
flag 2147483648 is read as a negative `int` and stored as 2147483648. -/
theorem wide_flag_not_clamped :
    (4294967296 : Int) > 1
      ∧ toInt32 4294967296 = 0
      ∧ (buildImage [{ resID := 7, flag := 4294967296, x := 3, y := 4 }] 10 10).2 3 4 = 0
      ∧ (buildImage [{ resID := 7, flag := 2147483648, x := 3, y := 4 }] 10 10).2 3 4
        = 2147483648
      ∧ extract_photons true (oneFileDir 1514764800 [hdrWord0, dataWordS2, hdrWord0])
          1514764800 0 [{ resID := 7, flag := 4294967296, x := 3, y := 4 }] 10 10
        = some { ret := 1
                 otable := [{ resID := 7, time := 100, wavelength := 16384,
                              baseline := 8192 }] } := by
  decide

/-- When `integration_time + 1` fits 32 bits the test on `nFiles` is the test of
the claim: outside `[1, 1800]` the call returns `-1`, and inside a return value
`-1` can only come from the directory test or from a file too large for the
read buffer. -/
theorem nFiles_check_32bit (dirExists : Bool) (dir : Int → Option (List Nat))
    (start_timestamp integration_time : Nat) (DiskBeamMap : List BMEntry)
    (bmap_ncol bmap_nrow : Nat) (h32 : integration_time + 1 < 4294967296) :
    (¬(1 ≤ integration_time + 1 ∧ integration_time + 1 ≤ 1800) →
        extract_photons dirExists dir start_timestamp integration_time DiskBeamMap
          bmap_ncol bmap_nrow = some { ret := -1, otable := [] })
      ∧ ((1 ≤ integration_time + 1 ∧ integration_time + 1 ≤ 1800) →
          ∀ r, extract_photons true dir start_timestamp integration_time DiskBeamMap
              bmap_ncol bmap_nrow = some r → r.ret = -1 →
            finalTables dir start_timestamp integration_time DiskBeamMap bmap_ncol bmap_nrow
              = none) := by
  have hn : toUInt32 ((integration_time : Int) + 1) = integration_time + 1 := by
    unfold toUInt32
    omega
  constructor
  · intro hout
    unfold extract_photons
    dsimp only
    rw [hn]
    split_ifs with h1 h2
    · rfl
    · rfl
    · omega
  · intro hin r hr hret
    unfold extract_photons at hr
    dsimp only at hr
    rw [hn] at hr
    rw [if_neg (by simp), if_neg (by omega)] at hr
    split at hr
    · assumption
    · split at hr
      · exact absurd hr (by simp)
      · simp only [Option.some.injEq] at hr
        subst hr
        simp only at hret
        omega

/-- Claim C15: for `integration_time = 4294967296` the value
`integration_time + 1` is outside `[1, 1800]`, but `nFiles` is a `uint32_t` and
receives 1: the test passes, and the call runs with a window of one file and
returns its photon count instead of `-1`. -/
theorem nFiles_check_wraps :
    ¬(1 ≤ 4294967296 + 1 ∧ 4294967296 + 1 ≤ 1800)
      ∧ toUInt32 (((4294967296 : Nat) : Int) + 1) = 1
      ∧ extract_photons true emptyDir 1514764800 4294967296 [] 10 10
        = some { ret := 0, otable := [] }
      ∧ extract_photons true (oneFileDir 1514764800 [hdrWord0, dataWordS2, hdrWord0])
          1514764800 4294967296 beamMapS2 10 10
        = some { ret := 1
                 otable := [{ resID := 42, time := 100, wavelength := 16384,
                              baseline := 8192 }] } := by
  decide

/-- An iteration of `cparsebin` on a data word when `pcount` has reached `max_len`
writes the record at index `max_len`, one past the last element of arrays of
`max_len` elements, and leaves every index below untouched. -/
theorem cparsebinStep_full (max_len : Nat) (s : ParseBinState) (w : Nat)
    (hw : (hdrOfWord (__bswap_64 w)).start ≠ 255) (hfull : s.pcount ≥ max_len) :
    ((cparsebinStep max_len s w).out max_len).isSome = true
      ∧ (∀ i, i < max_len → (cparsebinStep max_len s w).out i = s.out i)
      ∧ (cparsebinStep max_len s w).pcount = s.pcount + 1 := by
  unfold cparsebinStep
  rw [if_neg hw]
  dsimp only
  rw [if_pos hfull]
  refine ⟨by simp, ?_, rfl⟩
  intro i hi
  rw [if_neg (by omega)]

/-- Claim C16: with `max_len = 2` and a file of one header and three data words,
`cparsebin` returns 3; the arrays hold the first two events at positions 0 and 1
and the last event at position 2, which is outside arrays of two elements.  The
claim (and the comment at the head of the function) place the last event at
position `max_len - 1 = 1` and nothing at position `max_len`. -/
theorem cparsebin_writes_past_max_len :
    (cparsebin 2 [hdrWord0, dataWordS2, dataWord00, dataWord11]).map
        (fun r => (r.1, r.2 0, r.2 1, r.2 2, r.2 3))
      = some (3,
          some { baseline := 8192, wavelength := 16384, time := 100, ycoord := 4, xcoord := 3,
                 roach := 0 },
          some { baseline := 0, wavelength := 0, time := 0, ycoord := 0, xcoord := 0,
                 roach := 0 },
          some { baseline := 0, wavelength := 0, time := 0, ycoord := 1, xcoord := 1,
                 roach := 0 },
          none) := by
  decide

/-! ## Stream order -/

theorem streamEvents_append (c : Ctx) (a b : List (Int × List Nat × Nat)) :
    streamEvents c (a ++ b) = streamEvents c a ++ streamEvents c b := by
  induction a with
  | nil => rfl
  | cons call a ih => simp [streamEvents, ih]

/-- The data words of a call that reach the data-word loop are among the words of
the packet after its first, in order. -/
theorem packetEvents_words_sublist (c : Ctx) (iFile : Int) (packet : List Nat) (l : Nat) :
    ((packetEvents c (iFile, packet, l)).map Prod.snd).Sublist
      ((packet.take (l / 8)).drop 1) := by
  unfold packetEvents
  dsimp only
  split_ifs
  · exact List.nil_sublist _
  · exact List.nil_sublist _
  · rw [List.map_map]
    have : (Prod.snd ∘ fun (w : Nat) => (basetimeOf c iFile (packet.headD 0), w))
        = (id : Nat → Nat) := rfl
    rw [this, List.map_id]

/-- The data words the second loop over a file hands to the data-word loop are a
subsequence of the words of the file after word `pstart/8`. -/
theorem packetCalls_words_sublist (c : Ctx) (iFile : Int) (data : List Nat) :
    ∀ (ws : List Nat) (k pstart : Nat), data.drop k = ws → pstart / 8 + 1 ≤ k →
      pstart ≤ 8 * k →
      ((streamEvents c ((packetCalls data ws k pstart).map (fun pk => (iFile, pk)))).map
        Prod.snd).Sublist (data.drop (pstart / 8 + 1)) := by
  intro ws
  induction ws with
  | nil =>
    intro k pstart _ _ _
    exact List.nil_sublist _
  | cons w ws ih =>
    intro k pstart hdrop hk hp
    have hdrop' : data.drop (k + 1) = ws := by
      rw [← List.drop_drop, hdrop]
      rfl
    unfold packetCalls
    split_ifs with hw
    · simp only [List.map_cons, streamEvents, List.map_append]
      have hA := packetEvents_words_sublist c iFile (data.drop (pstart / 8)) (k * 8 - pstart)
      rw [List.drop_take, List.drop_drop] at hA
      have hA' : ((packetEvents c (iFile, data.drop (pstart / 8), k * 8 - pstart)).map
          Prod.snd).Sublist ((data.drop (pstart / 8 + 1)).take (k - (pstart / 8 + 1))) :=
        hA.trans (List.take_sublist_take_left _ (by omega))
      have hB := ih (k + 1) (k * 8) hdrop' (by omega) (by omega)
      have hk8 : k * 8 / 8 + 1 = k + 1 := by omega
      rw [hk8, hdrop'] at hB
      have hsplit : data.drop (pstart / 8 + 1)
          = (data.drop (pstart / 8 + 1)).take (k - (pstart / 8 + 1)) ++ (w :: ws) := by
        conv_lhs => rw [← List.take_append_drop (k - (pstart / 8 + 1)) (data.drop (pstart / 8 + 1))]
        rw [List.drop_drop]
        have : pstart / 8 + 1 + (k - (pstart / 8 + 1)) = k := by omega
        rw [this, hdrop]
      rw [hsplit]
      exact hA'.append (hB.trans (List.sublist_cons_self _ _))
    · exact ih (k + 1) pstart hdrop' (by omega) (by omega)

theorem fileCalls_words_sublist (c : Ctx) (iFile : Int) (data : List Nat) :
    ((streamEvents c ((fileCalls data).map (fun pk => (iFile, pk)))).map Prod.snd).Sublist
      data := by
  unfold fileCalls
  split
  · exact List.nil_sublist _
  · rename_i firstHeader _
    exact (packetCalls_words_sublist c iFile data _ (firstHeader + 1) firstHeader rfl
      (by omega) (by omega)).trans (List.drop_sublist _ _)

/-- The data words that reach the data-word loop during the file loop are a
subsequence of the input stream. -/
theorem dirCalls_words_sublist (c : Ctx) (dir : Int → Option (List Nat)) :
    ∀ (is : List Int),
      ((streamEvents c (dirCalls c dir is)).map Prod.snd).Sublist (streamWords c dir is) := by
  intro is
  induction is with
  | nil => exact List.nil_sublist _
  | cons i is ih =>
    unfold dirCalls streamWords
    split
    · exact ih
    · rw [streamEvents_append, List.map_append]
      exact (fileCalls_words_sublist c (toInt32 i) _).append ih

/-! ## Materialization and order -/

/-- A call of `extract_photons` that returns a value other than `-1` has run the
file loop to its end and the materialisation loop over the whole entry list. -/
theorem extract_photons_success (dirExists : Bool) (dir : Int → Option (List Nat))
    (start_timestamp integration_time : Nat) (DiskBeamMap : List BMEntry)
    (bmap_ncol bmap_nrow : Nat) (r : ExtractResult)
    (hr : extract_photons dirExists dir start_timestamp integration_time DiskBeamMap
      bmap_ncol bmap_nrow = some r)
    (hok : r.ret ≠ -1) :
    ∃ st acc,
      finalTables dir start_timestamp integration_time DiskBeamMap bmap_ncol bmap_nrow = some st
        ∧ materialize (buildImage DiskBeamMap bmap_ncol bmap_nrow).1 st bmap_ncol bmap_nrow
            DiskBeamMap (0, []) = some acc
        ∧ r.ret = (acc.1 : Nat) ∧ r.otable = acc.2
        ∧ (∀ i j, st.ptablect i j = (st.ptable i j).length) := by
  unfold extract_photons at hr
  dsimp only at hr
  split_ifs at hr with h1 h2
  · simp only [Option.some.injEq] at hr
    subst hr
    exact absurd rfl hok
  · simp only [Option.some.injEq] at hr
    subst hr
    exact absurd rfl hok
  · split at hr
    · simp only [Option.some.injEq] at hr
      subst hr
      exact absurd rfl hok
    · rename_i st hst
      split at hr
      · exact absurd hr (by simp)
      · rename_i acc hacc
        simp only [Option.some.injEq] at hr
        subst hr
        refine ⟨st, acc, hst, hacc, rfl, rfl, ?_⟩
        have hfin := finalTables_eq dir start_timestamp integration_time DiskBeamMap
          bmap_ncol bmap_nrow st hst
        rw [hfin]
        exact calls_preserve (fun s => ∀ i j, s.ptablect i j = (s.ptable i j).length) _
          (fun b s w hs => ingest_count_length _ b s w hs) _ _
          (initTables_count_length _ _ _)

/-- The materialisation loop runs to its end when no entry has a negative
coordinate. -/
theorem materialize_total (BeamMap : Table) (st : PhotonTables) (cols rows : Nat) :
    ∀ (es : List BMEntry), (∀ e ∈ es, 0 ≤ e.x ∧ 0 ≤ e.y) →
      ∀ acc, ∃ acc', materialize BeamMap st cols rows es acc = some acc' := by
  intro es
  induction es with
  | nil => intro _ acc; exact ⟨acc, rfl⟩
  | cons e es ih =>
    intro h acc
    have he := h e (List.mem_cons_self _ _)
    have ih' := ih (fun f hf => h f (List.mem_cons_of_mem _ hf))
    rw [materialize]
    split_ifs with h1 h2 h3 h4 h5
    · exact ih' _
    · exact ih' _
    · omega
    · exact ih' _
    · exact ih' _
    · exact ih' _

/-- The values of `i`, as a map over the natural numbers below `nFiles + 2`. -/
theorem fileIndices_eq (nFiles : Nat) :
    fileIndices nFiles = (List.range (nFiles + 2)).map (fun k : Nat => (k : Int) - 1) := by
  unfold fileIndices
  simp only [List.map_eq_map, Functor.map, List.bind_eq_flatMap, List.flatMap, List.map_map]
  have h : ∀ l : List Nat,
      (List.map (fun a => (pure ((a : Nat) : Int) : List Int)) l).flatten
        = l.map (fun a : Nat => (a : Int)) := by
    intro l
    induction l with
    | nil => rfl
    | cons a l ih =>
      simp only [List.map_cons, List.flatten_cons, ih]
      rfl
  rw [h, List.map_map]
  rfl

/-- The file loop visits the values of `i` in ascending order. -/
theorem fileIndices_pairwise (nFiles : Nat) :
    (fileIndices nFiles).Pairwise (fun i j => i < j) := by
  rw [fileIndices_eq, List.pairwise_map]
  refine (List.pairwise_lt_range (nFiles + 2)).imp ?_
  intro a b hab
  show (a : Int) - 1 < (b : Int) - 1
  omega

theorem fileIndices_ends (nFiles : Nat) :
    (fileIndices nFiles).head? = some (-1)
      ∧ (fileIndices nFiles).getLast? = some (nFiles : Int) := by
  rw [fileIndices_eq]
  constructor
  · simp [List.range_succ_eq_map]
  · simp [List.range_succ]

/-- Claim C14: at the end of the file loop the buffer of every pixel holds the
photons of the data words addressed to it in the delivered in-window packets, in
stream order, when the pixel is in range with `BeamFlag` 0, and nothing
otherwise; these data words are a subsequence of the input stream, which lists
the files in ascending order of `i` from `-1` to `nFiles` and the words of a file
in file order; and the output of a successful call is the sequence of these
buffers, one per emitted entry, so that two events of one entry keep the order
of their data words. -/
theorem order_preserved (dirExists : Bool) (dir : Int → Option (List Nat))
    (start_timestamp integration_time : Nat) (DiskBeamMap : List BMEntry)
    (bmap_ncol bmap_nrow : Nat) :
    (∀ st,
        finalTables dir start_timestamp integration_time DiskBeamMap bmap_ncol bmap_nrow
          = some st →
        ∀ x y, st.ptable x y
          = if x < bmap_ncol ∧ y < bmap_nrow
                ∧ (buildImage DiskBeamMap bmap_ncol bmap_nrow).2 x y = 0 then
              pixelEvents
                (callCtx start_timestamp integration_time DiskBeamMap bmap_ncol bmap_nrow)
                (dirCalls
                  (callCtx start_timestamp integration_time DiskBeamMap bmap_ncol bmap_nrow)
                  dir (fileIndices (toUInt32 (integration_time + 1)))) x y
            else [])
      ∧ ((streamEvents
            (callCtx start_timestamp integration_time DiskBeamMap bmap_ncol bmap_nrow)
            (dirCalls
              (callCtx start_timestamp integration_time DiskBeamMap bmap_ncol bmap_nrow)
              dir (fileIndices (toUInt32 (integration_time + 1))))).map Prod.snd).Sublist
          (streamWords
            (callCtx start_timestamp integration_time DiskBeamMap bmap_ncol bmap_nrow)
            dir (fileIndices (toUInt32 (integration_time + 1))))
      ∧ (fileIndices (toUInt32 (integration_time + 1))).Pairwise (fun i j => i < j)
      ∧ (fileIndices (toUInt32 (integration_time + 1))).head? = some (-1)
      ∧ (fileIndices (toUInt32 (integration_time + 1))).getLast?
          = some ((toUInt32 (integration_time + 1) : Nat) : Int)
      ∧ (∀ r, extract_photons dirExists dir start_timestamp integration_time DiskBeamMap
            bmap_ncol bmap_nrow = some r → r.ret ≠ -1 →
          ∃ st,
            finalTables dir start_timestamp integration_time DiskBeamMap bmap_ncol bmap_nrow
                = some st
              ∧ r.otable
                = entriesEvents (buildImage DiskBeamMap bmap_ncol bmap_nrow).1 st bmap_ncol
                    bmap_nrow DiskBeamMap) := by
  have hm : (callCtx start_timestamp integration_time DiskBeamMap bmap_ncol bmap_nrow).mapflag
      > 0 := by
    show (1 : Int) > 0
    decide
  refine ⟨?_, dirCalls_words_sublist _ dir _, ?_, ?_, ?_, ?_⟩
  · intro st hst x y
    have hfin := finalTables_eq dir start_timestamp integration_time DiskBeamMap bmap_ncol
      bmap_nrow st hst
    split_ifs with hadm
    · obtain ⟨hx, hy, hf⟩ := hadm
      have hg : ¬((callCtx start_timestamp integration_time DiskBeamMap bmap_ncol
            bmap_nrow).mapflag > 0
          ∧ (callCtx start_timestamp integration_time DiskBeamMap bmap_ncol
            bmap_nrow).BeamFlag x y > 0) := by
        rintro ⟨_, hpos⟩
        have : (buildImage DiskBeamMap bmap_ncol bmap_nrow).2 x y > 0 := hpos
        omega
      have := calls_ptable
        (callCtx start_timestamp integration_time DiskBeamMap bmap_ncol bmap_nrow)
        x y hx hy hg
        (dirCalls (callCtx start_timestamp integration_time DiskBeamMap bmap_ncol bmap_nrow)
          dir (fileIndices (toUInt32 (integration_time + 1))))
        (initTables (callCtx start_timestamp integration_time DiskBeamMap bmap_ncol
          bmap_nrow).BeamMap bmap_ncol bmap_nrow)
      rw [← hfin] at this
      rw [this]
      simp [initTables]
    · have hblk : x ≥ (callCtx start_timestamp integration_time DiskBeamMap bmap_ncol
            bmap_nrow).beamCols
          ∨ y ≥ (callCtx start_timestamp integration_time DiskBeamMap bmap_ncol
            bmap_nrow).beamRows
          ∨ ((callCtx start_timestamp integration_time DiskBeamMap bmap_ncol
            bmap_nrow).mapflag > 0
            ∧ (callCtx start_timestamp integration_time DiskBeamMap bmap_ncol
              bmap_nrow).BeamFlag x y > 0) := by
        by_cases h1 : x < bmap_ncol
        · by_cases h2 : y < bmap_nrow
          · right; right
            refine ⟨hm, ?_⟩
            show (buildImage DiskBeamMap bmap_ncol bmap_nrow).2 x y > 0
            by_contra h3
            exact hadm ⟨h1, h2, by omega⟩
          · right; left
            show y ≥ bmap_nrow
            omega
        · left
          show x ≥ bmap_ncol
          omega
      have hkeep := calls_preserve (fun s => s.ptable x y = [])
        (callCtx start_timestamp integration_time DiskBeamMap bmap_ncol bmap_nrow)
        (fun b s w hs => by
          have hb := ingest_blocked
            (callCtx start_timestamp integration_time DiskBeamMap bmap_ncol bmap_nrow)
            b s w x y
            (by
              rcases hblk with h | h | h
              · exact Or.inl h
              · exact Or.inr (Or.inl h)
              · exact Or.inr (Or.inr (Or.inl h)))
          exact hb.1.trans hs)
        (dirCalls (callCtx start_timestamp integration_time DiskBeamMap bmap_ncol bmap_nrow)
          dir (fileIndices (toUInt32 (integration_time + 1))))
        (initTables (callCtx start_timestamp integration_time DiskBeamMap bmap_ncol
          bmap_nrow).BeamMap bmap_ncol bmap_nrow) rfl
      rw [← hfin] at hkeep
      exact hkeep
  · exact fileIndices_pairwise _
  · exact (fileIndices_ends _).1
  · exact (fileIndices_ends _).2
  · intro r hr hok
    obtain ⟨st, acc, hst, hacc, hret, hot, hlen⟩ := extract_photons_success dirExists dir
      start_timestamp integration_time DiskBeamMap bmap_ncol bmap_nrow r hr hok
    refine ⟨st, hst, ?_⟩
    rw [hot, (materialize_events _ st _ _ hlen _ _ _ rfl hacc).1]
    rfl

/-! ## Size of the output -/

/-- One loop iteration raises no counter but that of the addressed cell, and
that one by at most 1. -/
theorem ingest_count_le (c : Ctx) (b : Int) (st : PhotonTables) (w x y : Nat) :
    (ingest c b st w).ptablect x y
      ≤ st.ptablect x y
        + (if x = (dataOfWord (__bswap_64 w)).xcoord ∧ y = (dataOfWord (__bswap_64 w)).ycoord
            then 1 else 0) := by
  by_cases ha : addressedTo x y (b, w) = true
  · have ha' := ha
    simp only [addressedTo, Bool.and_eq_true, beq_iff_eq] at ha'
    rw [if_pos ⟨ha'.1.symm, ha'.2.symm⟩]
    by_cases hadm : x < c.beamCols ∧ y < c.beamRows ∧ ¬(c.mapflag > 0 ∧ c.BeamFlag x y > 0)
    · rw [(ingest_admitted c b st w x y hadm.1 hadm.2.1 hadm.2.2 ha).2]
    · have hb := ingest_blocked c b st w x y (by
        by_cases h1 : x < c.beamCols
        · by_cases h2 : y < c.beamRows
          · right; right; left
            by_contra h3
            exact hadm ⟨h1, h2, h3⟩
          · right; left; omega
        · left; omega)
      rw [hb.2.1]
      omega
  · have ha' : addressedTo x y (b, w) = false := by simpa using ha
    rw [(ingest_blocked c b st w x y (Or.inr (Or.inr (Or.inr ha')))).2.1]
    omega

/-- The sum of the counters over entries none of which lies at the cell `(p, q)`
does not grow when only the counter of `(p, q)` grows. -/
theorem countSum_step_off (st st' : PhotonTables) (keep : BMEntry → Bool) (p q : Nat)
    (hstep : ∀ x y, st'.ptablect x y
      ≤ st.ptablect x y + (if x = p ∧ y = q then 1 else 0)) :
    ∀ (es : List BMEntry),
      (∀ e ∈ es, keep e = true → ¬(e.x.toNat = p ∧ e.y.toNat = q)) →
      countSum st' keep es ≤ countSum st keep es := by
  intro es
  induction es with
  | nil => intro _; exact Nat.le_refl _
  | cons e es ih =>
    intro h
    have ih' := ih (fun f hf => h f (List.mem_cons_of_mem _ hf))
    unfold countSum
    by_cases hk : keep e = true
    · have hne := h e (List.mem_cons_self _ _) hk
      have := hstep e.x.toNat e.y.toNat
      rw [if_neg hne] at this
      simp only [hk, if_true]
      omega
    · simp only [hk]
      simpa using ih'

/-- When the kept entries lie at pairwise different cells, the sum of their
counters grows by at most 1 when one counter grows by at most 1. -/
theorem countSum_step (st st' : PhotonTables) (keep : BMEntry → Bool) (p q : Nat)
    (hstep : ∀ x y, st'.ptablect x y
      ≤ st.ptablect x y + (if x = p ∧ y = q then 1 else 0)) :
    ∀ (es : List BMEntry),
      es.Pairwise (fun e f => keep e = true → keep f = true →
        ¬(e.x.toNat = f.x.toNat ∧ e.y.toNat = f.y.toNat)) →
      countSum st' keep es ≤ countSum st keep es + 1 := by
  intro es
  induction es with
  | nil => intro _; exact Nat.le_succ _
  | cons e es ih =>
    intro h
    rw [List.pairwise_cons] at h
    obtain ⟨he, hes⟩ := h
    unfold countSum
    by_cases hk : keep e = true
    · simp only [hk, if_true]
      by_cases hat : e.x.toNat = p ∧ e.y.toNat = q
      · have hoff := countSum_step_off st st' keep p q hstep es (by
          intro f hf hkf hfat
          exact he f hf hk hkf ⟨hat.1.trans hfat.1.symm, hat.2.trans hfat.2.symm⟩)
        have := hstep e.x.toNat e.y.toNat
        rw [if_pos hat] at this
        omega
      · have := hstep e.x.toNat e.y.toNat
        rw [if_neg hat] at this
        have := ih hes
        omega
    · simp only [hk]
      have := ih hes
      simpa using this

/-- A quantity that every loop iteration raises by at most 1 is raised by a
sequence of calls by at most the number of data words that reach the loop. -/
theorem calls_measure (M : PhotonTables → Nat) (c : Ctx)
    (hstep : ∀ b st w, M (ingest c b st w) ≤ M st + 1) :
    ∀ (calls : List (Int × List Nat × Nat)) (st : PhotonTables),
      M (calls.foldl (fun s call => ParseToMem c call.2.1 call.2.2 call.1 s) st)
        ≤ M st + (streamEvents c calls).length := by
  have hfold : ∀ (ws : List Nat) (b : Int) (st : PhotonTables),
      M (ws.foldl (ingest c b) st) ≤ M st + ws.length := by
    intro ws
    induction ws with
    | nil => intro b st; exact Nat.le_refl _
    | cons w ws ih =>
      intro b st
      rw [List.foldl_cons, List.length_cons]
      have := ih b (ingest c b st w)
      have := hstep b st w
      omega
  have hcall : ∀ (call : Int × List Nat × Nat) (st : PhotonTables),
      M (ParseToMem c call.2.1 call.2.2 call.1 st) ≤ M st + (packetEvents c call).length := by
    intro call st
    unfold ParseToMem packetEvents
    dsimp only
    split_ifs
    · exact Nat.le_add_right _ _
    · exact Nat.le_add_right _ _
    · rw [List.length_map]
      exact hfold _ _ _
  intro calls
  induction calls with
  | nil => intro st; exact Nat.le_refl _
  | cons call calls ih =>
    intro st
    rw [List.foldl_cons]
    have := ih (ParseToMem c call.2.1 call.2.2 call.1 st)
    have := hcall call st
    simp only [streamEvents, List.length_append]
    omega

theorem countSum_initTables (BeamMap : Table) (cols rows : Nat) (keep : BMEntry → Bool) :
    ∀ (es : List BMEntry), countSum (initTables BeamMap cols rows) keep es = 0 := by
  intro es
  induction es with
  | nil => rfl
  | cons e es ih =>
    unfold countSum
    rw [ih]
    simp [initTables]

/-- Claim C17 (as stated): with the entry of scenario S2 listed four times and
the file `[header, data, header]` of three words, `extract_photons` writes and
returns four photons. -/
theorem output_exceeds_words :
    (streamWords (callCtx 1514764800 0 (beamMapS2 ++ beamMapS2 ++ beamMapS2 ++ beamMapS2) 10 10)
        (oneFileDir 1514764800 [hdrWord0, dataWordS2, hdrWord0]) (fileIndices 1)).length = 3
      ∧ (extract_photons true (oneFileDir 1514764800 [hdrWord0, dataWordS2, hdrWord0])
          1514764800 0 (beamMapS2 ++ beamMapS2 ++ beamMapS2 ++ beamMapS2) 10 10).map
          (fun r => (r.ret, r.otable.length)) = some (4, 4) := by
  decide

/-- Claim C17 (amended): when no two beam-map entries have the same coordinates,
the number of photons a successful `extract_photons` writes and returns is at
most the total number of 8-byte words in the files it read. -/
theorem output_within_words (dirExists : Bool) (dir : Int → Option (List Nat))
    (start_timestamp integration_time : Nat) (DiskBeamMap : List BMEntry)
    (bmap_ncol bmap_nrow : Nat) (r : ExtractResult)
    (hdist : DiskBeamMap.Pairwise (fun e f => ¬(e.x = f.x ∧ e.y = f.y)))
    (hr : extract_photons dirExists dir start_timestamp integration_time DiskBeamMap
      bmap_ncol bmap_nrow = some r)
    (hok : r.ret ≠ -1) :
    r.ret ≤ ((streamWords
          (callCtx start_timestamp integration_time DiskBeamMap bmap_ncol bmap_nrow) dir
          (fileIndices (toUInt32 (integration_time + 1)))).length : Nat)
      ∧ r.otable.length
        ≤ (streamWords
          (callCtx start_timestamp integration_time DiskBeamMap bmap_ncol bmap_nrow) dir
          (fileIndices (toUInt32 (integration_time + 1)))).length := by
  obtain ⟨st, acc, hst, hacc, hret, hot, hlen⟩ := extract_photons_success dirExists dir
    start_timestamp integration_time DiskBeamMap bmap_ncol bmap_nrow r hr hok
  have hfin := finalTables_eq dir start_timestamp integration_time DiskBeamMap bmap_ncol
    bmap_nrow st hst
  have hcount := materialize_count _ st _ _ _ _ _ hacc
  have hevents := (materialize_events _ st _ _ hlen _ _ _ rfl hacc).2
  have hpair : DiskBeamMap.Pairwise (fun e f =>
      entryEmitted (buildImage DiskBeamMap bmap_ncol bmap_nrow).1 bmap_ncol bmap_nrow e = true →
      entryEmitted (buildImage DiskBeamMap bmap_ncol bmap_nrow).1 bmap_ncol bmap_nrow f = true →
      ¬(e.x.toNat = f.x.toNat ∧ e.y.toNat = f.y.toNat)) := by
    refine hdist.imp ?_
    intro e f hne he hf hcoord
    simp only [entryEmitted, entryInRange, Bool.and_eq_true, decide_eq_true_eq] at he hf
    apply hne
    omega
  have hmeasure := calls_measure
    (fun s => countSum s
      (entryEmitted (buildImage DiskBeamMap bmap_ncol bmap_nrow).1 bmap_ncol bmap_nrow)
      DiskBeamMap)
    (callCtx start_timestamp integration_time DiskBeamMap bmap_ncol bmap_nrow)
    (fun b s w => countSum_step s _ _ _ _
      (fun x y => ingest_count_le _ b s w x y) DiskBeamMap hpair)
    (dirCalls (callCtx start_timestamp integration_time DiskBeamMap bmap_ncol bmap_nrow) dir
      (fileIndices (toUInt32 (integration_time + 1))))
    (initTables (callCtx start_timestamp integration_time DiskBeamMap bmap_ncol
      bmap_nrow).BeamMap bmap_ncol bmap_nrow)
  rw [← hfin] at hmeasure
  simp only [countSum_initTables, Nat.zero_add] at hmeasure
  have hsub := (dirCalls_words_sublist
    (callCtx start_timestamp integration_time DiskBeamMap bmap_ncol bmap_nrow) dir
    (fileIndices (toUInt32 (integration_time + 1)))).length_le
  rw [List.length_map] at hsub
  simp only [Nat.zero_add] at hcount
  have hn : acc.1 ≤ (streamWords
      (callCtx start_timestamp integration_time DiskBeamMap bmap_ncol bmap_nrow) dir
      (fileIndices (toUInt32 (integration_time + 1)))).length := by
    rw [hcount]
    exact hmeasure.trans hsub
  constructor
  · rw [hret]
    exact_mod_cast hn
  · rw [hot, ← hevents]
    exact hn

/-- Claim C17 (amended), at scenario S2 closed by a header word: one photon from
a file of three words. -/
theorem output_within_words_witness :
    (1 : Int) ≤ ((streamWords (callCtx 1514764800 0 beamMapS2 10 10)
          (oneFileDir 1514764800 [hdrWord0, dataWordS2, hdrWord0])
          (fileIndices (toUInt32 (((0 : Nat) : Int) + 1)))).length : Nat)
      ∧ [({ resID := 42, time := 100, wavelength := 16384, baseline := 8192 } : photon)].length
        ≤ (streamWords (callCtx 1514764800 0 beamMapS2 10 10)
          (oneFileDir 1514764800 [hdrWord0, dataWordS2, hdrWord0])
          (fileIndices (toUInt32 (((0 : Nat) : Int) + 1)))).length :=
  output_within_words true (oneFileDir 1514764800 [hdrWord0, dataWordS2, hdrWord0])
    1514764800 0 beamMapS2 10 10
    { ret := 1, otable := [{ resID := 42, time := 100, wavelength := 16384, baseline := 8192 }] }
    (by decide) (by decide) (by decide)

/-! ## Trailing words -/

/-- A list of non-header words has no first header. -/
theorem findFirstHeader_none (T : List Nat) (hT : ∀ w ∈ T, isHeaderWord w = false) :
    ∀ j, findFirstHeader T j = none := by
  induction T with
  | nil => intro j; rfl
  | cons w T ih =>
    intro j
    unfold findFirstHeader
    rw [hT w (List.mem_cons_self _ _)]
    exact ih (fun v hv => hT v (List.mem_cons_of_mem _ hv)) _

/-- Claim C18 (as stated): a file of 2750 data words fills the read buffer of a
1 x 1 array (22000 bytes) and the call returns 0; with one more data word
appended the file is larger than the buffer and the call returns `-1`. -/
theorem trailing_word_overflows_buffer :
    isHeaderWord dataWord00 = false
      ∧ DATA_BUFFER_SIZE_BYTES 1 1 = 8 * (List.replicate 2750 dataWord00).length
      ∧ extract_photons true (oneFileDir 1514764800 (List.replicate 2750 dataWord00))
          1514764800 0 [] 1 1 = some { ret := 0, otable := [] }
      ∧ extract_photons true
          (appendToFile (oneFileDir 1514764800 (List.replicate 2750 dataWord00)) 1514764800
            [dataWord00])
          1514764800 0 [] 1 1 = some { ret := -1, otable := [] } := by
  have hw : isHeaderWord dataWord00 = false := by decide
  have hidx : fileIndices (toUInt32 (((0 : Nat) : Int) + 1)) = [-1, 0, 1] := by decide
  have hfirst : (callCtx 1514764800 0 [] 1 1).FirstFile = 1514764800 := by decide
  have hbuf : DATA_BUFFER_SIZE_BYTES 1 1 = 22000 := by decide
  have hfile : ∀ (iFile : Int) (st : PhotonTables),
      processFile (callCtx 1514764800 0 [] 1 1) iFile (List.replicate 2750 dataWord00) st
        = st := by
    intro iFile st
    unfold processFile
    rw [findFirstHeader_none _ (fun w hw' => by
      rw [List.eq_of_mem_replicate hw']
      exact hw)]
  have hA : finalTables (oneFileDir 1514764800 (List.replicate 2750 dataWord00))
      1514764800 0 [] 1 1
      = some (initTables (callCtx 1514764800 0 [] 1 1).BeamMap 1 1) := by
    unfold finalTables
    dsimp only
    rw [hidx, hbuf]
    simp only [readFiles, hfirst, oneFileDir]
    norm_num [hfile]
  have hB : finalTables
      (appendToFile (oneFileDir 1514764800 (List.replicate 2750 dataWord00)) 1514764800
        [dataWord00])
      1514764800 0 [] 1 1 = none := by
    unfold finalTables
    dsimp only
    rw [hidx, hbuf]
    simp only [readFiles, hfirst, oneFileDir, appendToFile]
    norm_num
  refine ⟨hw, ?_, ?_, ?_⟩
  · rw [hbuf, List.length_replicate]
  · unfold extract_photons
    dsimp only
    rw [hA]
    rfl
  · unfold extract_photons
    dsimp only
    rw [hB]
    rfl

theorem findFirstHeader_lt :
    ∀ (data : List Nat) (j0 j : Nat), findFirstHeader data j0 = some j →
      j0 ≤ j ∧ j < j0 + data.length := by
  intro data
  induction data with
  | nil => intro j0 j h; simp [findFirstHeader] at h
  | cons w data ih =>
    intro j0 j h
    unfold findFirstHeader at h
    split_ifs at h
    · simp only [Option.some.injEq] at h
      subst h
      simp
    · have := ih _ _ h
      simp only [List.length_cons]
      omega

/-- Non-header words appended to a file do not move its first header. -/
theorem findFirstHeader_append (T : List Nat) (hT : ∀ w ∈ T, isHeaderWord w = false) :
    ∀ (data : List Nat) (j : Nat),
      findFirstHeader (data ++ T) j = findFirstHeader data j := by
  intro data
  induction data with
  | nil =>
    intro j
    rw [List.nil_append, findFirstHeader_none T hT]
    rfl
  | cons w data ih =>
    intro j
    rw [List.cons_append]
    unfold findFirstHeader
    split_ifs
    · rfl
    · exact ih _

/-- The second loop makes no call on non-header words. -/
theorem packetCalls_none (data T : List Nat) (hT : ∀ w ∈ T, isHeaderWord w = false) :
    ∀ k pstart, packetCalls data T k pstart = [] := by
  induction T with
  | nil => intro k pstart; rfl
  | cons w T ih =>
    intro k pstart
    unfold packetCalls
    rw [hT w (List.mem_cons_self _ _)]
    exact ih (fun v hv => hT v (List.mem_cons_of_mem _ hv)) _ _

/-- `ParseToMem` reads only the first `l / 8` words of the region it is given. -/
theorem ParseToMem_append (c : Ctx) (packet T : List Nat) (l : Nat) (iFile : Int)
    (st : PhotonTables) (hne : packet ≠ []) (hl : l / 8 ≤ packet.length) :
    ParseToMem c (packet ++ T) l iFile st = ParseToMem c packet l iFile st := by
  have hhead : (packet ++ T).headD 0 = packet.headD 0 := by
    cases packet with
    | nil => exact absurd rfl hne
    | cons a p => rfl
  unfold ParseToMem
  rw [hhead, List.take_append_of_le_length hl]

/-- Every call of the second loop is given a non-empty region of the file that
holds the `l / 8` words it reads. -/
theorem packetCalls_reads_within (data : List Nat) :
    ∀ (ws : List Nat) (k pstart : Nat), data.drop k = ws → pstart ≤ 8 * k →
      ∀ pk ∈ packetCalls data ws k pstart, pk.1 ≠ [] ∧ pk.2 / 8 ≤ pk.1.length := by
  intro ws
  induction ws with
  | nil => intro k pstart _ _ pk hpk; simp [packetCalls] at hpk
  | cons w ws ih =>
    intro k pstart hdrop hp pk hpk
    have hdrop' : data.drop (k + 1) = ws := by
      rw [← List.drop_drop, hdrop]
      rfl
    have hk : k < data.length := by
      have := congrArg List.length hdrop
      simp only [List.length_drop, List.length_cons] at this
      omega
    unfold packetCalls at hpk
    split_ifs at hpk with hw
    · rw [List.mem_cons] at hpk
      rcases hpk with hpk | hpk
      · subst hpk
        have hlen : (data.drop (pstart / 8)).length = data.length - pstart / 8 :=
          List.length_drop _ _
        constructor
        · intro hnil
          have hnil' : data.drop (pstart / 8) = [] := hnil
          rw [hnil'] at hlen
          simp only [List.length_nil] at hlen
          omega
        · show (k * 8 - pstart) / 8 ≤ (data.drop (pstart / 8)).length
          rw [hlen]
          omega
      · exact ih (k + 1) (k * 8) hdrop' (by omega) pk hpk
    · exact ih (k + 1) pstart hdrop' (by omega) pk hpk

/-- With non-header words appended to the file the second loop makes the same
calls, on regions that extend over the appended words. -/
theorem packetCalls_append (data T : List Nat) (hT : ∀ w ∈ T, isHeaderWord w = false) :
    ∀ (ws : List Nat) (k pstart : Nat), data.drop k = ws → pstart ≤ 8 * k →
      packetCalls (data ++ T) (ws ++ T) k pstart
        = (packetCalls data ws k pstart).map (fun pk => (pk.1 ++ T, pk.2)) := by
  intro ws
  induction ws with
  | nil =>
    intro k pstart _ _
    rw [List.nil_append, packetCalls_none _ T hT]
    rfl
  | cons w ws ih =>
    intro k pstart hdrop hp
    have hdrop' : data.drop (k + 1) = ws := by
      rw [← List.drop_drop, hdrop]
      rfl
    have hk : k < data.length := by
      have := congrArg List.length hdrop
      simp only [List.length_drop, List.length_cons] at this
      omega
    rw [List.cons_append]
    unfold packetCalls
    split_ifs with hw
    · rw [List.map_cons, ih (k + 1) (k * 8) hdrop' (by omega),
        List.drop_append_of_le_length (by omega)]
    · exact ih (k + 1) pstart hdrop' (by omega)

theorem fileCalls_append (data T : List Nat) (hT : ∀ w ∈ T, isHeaderWord w = false) :
    fileCalls (data ++ T) = (fileCalls data).map (fun pk => (pk.1 ++ T, pk.2)) := by
  unfold fileCalls
  rw [findFirstHeader_append T hT]
  cases h : findFirstHeader data 0 with
  | none => rfl
  | some firstHeader =>
    have hlt := findFirstHeader_lt data 0 firstHeader h
    dsimp only
    rw [List.drop_append_of_le_length (by omega)]
    exact packetCalls_append data T hT _ (firstHeader + 1) firstHeader rfl (by omega)

theorem fileCalls_reads_within (data : List Nat) :
    ∀ pk ∈ fileCalls data, pk.1 ≠ [] ∧ pk.2 / 8 ≤ pk.1.length := by
  unfold fileCalls
  cases h : findFirstHeader data 0 with
  | none => intro pk hpk; simp at hpk
  | some firstHeader =>
    exact packetCalls_reads_within data _ (firstHeader + 1) firstHeader rfl (by omega)

/-- Non-header words appended to a file do not change what the file loop does
with the file. -/
theorem processFile_append (c : Ctx) (iFile : Int) (data T : List Nat)
    (hT : ∀ w ∈ T, isHeaderWord w = false) (st : PhotonTables) :
    processFile c iFile (data ++ T) st = processFile c iFile data st := by
  rw [processFile_eq_foldl, processFile_eq_foldl, fileCalls_append data T hT, List.map_map,
    List.foldl_map, List.foldl_map]
  apply List.foldl_ext
  intro s pk hpk
  have := fileCalls_reads_within data pk hpk
  exact ParseToMem_append c pk.1 T pk.2 iFile s this.1 this.2

/-- Non-header words appended to one file that still fits the read buffer do not
change the file loop. -/
theorem readFiles_append (c : Ctx) (dir : Int → Option (List Nat)) (bufSize : Nat)
    (second : Int) (T : List Nat) (hT : ∀ w ∈ T, isHeaderWord w = false)
    (hfit : ∀ data, dir second = some data → 8 * (data.length + T.length) ≤ bufSize) :
    ∀ (is : List Int) (st : PhotonTables),
      readFiles c (appendToFile dir second T) bufSize is st = readFiles c dir bufSize is st := by
  intro is
  induction is with
  | nil => intro st; rfl
  | cons i is ih =>
    intro st
    unfold readFiles
    by_cases hs : c.FirstFile + i = second
    · cases hd : dir second with
      | none =>
        have h1 : appendToFile dir second T (c.FirstFile + i) = none := by
          simp [appendToFile, hs, hd]
        have h2 : dir (c.FirstFile + i) = none := by rw [hs, hd]
        rw [h1, h2]
        exact ih st
      | some data =>
        have h1 : appendToFile dir second T (c.FirstFile + i) = some (data ++ T) := by
          simp [appendToFile, hs, hd]
        have h2 : dir (c.FirstFile + i) = some data := by rw [hs, hd]
        have hf := hfit data hd
        rw [h1, h2]
        dsimp only
        rw [if_neg (by rw [List.length_append]; omega), if_neg (by omega),
          processFile_append c _ data T hT]
        exact ih _
    · have h1 : appendToFile dir second T (c.FirstFile + i) = dir (c.FirstFile + i) := by
        simp [appendToFile, hs]
      rw [h1]
      cases hd : dir (c.FirstFile + i) with
      | none => exact ih st
      | some data =>
        dsimp only
        split_ifs
        · rfl
        · exact ih _

/-- Claim C18 (amended): the words of a file that follow its last header word are
never read by `ParseToMem`: with non-header words appended the second loop makes
the same calls, each still reading only words of the original file; and when
the extended file still fits the read buffer, appending non-header words to a
file changes neither the per-pixel buffers, nor the output, nor the return value
of `extract_photons`. -/
theorem trailing_words_discarded (dirExists : Bool) (dir : Int → Option (List Nat))
    (start_timestamp integration_time : Nat) (DiskBeamMap : List BMEntry)
    (bmap_ncol bmap_nrow : Nat) (second : Int) (T : List Nat)
    (hT : ∀ w ∈ T, isHeaderWord w = false)
    (hfit : ∀ data, dir second = some data →
      8 * (data.length + T.length) ≤ DATA_BUFFER_SIZE_BYTES bmap_ncol bmap_nrow) :
    (∀ data, fileCalls (data ++ T) = (fileCalls data).map (fun pk => (pk.1 ++ T, pk.2))
        ∧ ∀ pk ∈ fileCalls data, pk.1 ≠ [] ∧ pk.2 / 8 ≤ pk.1.length)
      ∧ finalTables (appendToFile dir second T) start_timestamp integration_time DiskBeamMap
          bmap_ncol bmap_nrow
        = finalTables dir start_timestamp integration_time DiskBeamMap bmap_ncol bmap_nrow
      ∧ extract_photons dirExists (appendToFile dir second T) start_timestamp integration_time
          DiskBeamMap bmap_ncol bmap_nrow
        = extract_photons dirExists dir start_timestamp integration_time DiskBeamMap
            bmap_ncol bmap_nrow := by
  have hfin : finalTables (appendToFile dir second T) start_timestamp integration_time
      DiskBeamMap bmap_ncol bmap_nrow
      = finalTables dir start_timestamp integration_time DiskBeamMap bmap_ncol bmap_nrow := by
    unfold finalTables
    exact readFiles_append _ dir _ second T hT hfit _ _
  refine ⟨fun data => ⟨fileCalls_append data T hT, fileCalls_reads_within data⟩, hfin, ?_⟩
  unfold extract_photons
  rw [hfin]

/-- Claim C18 (amended), at scenario S2 closed by a header word, with the data
word of pixel `(0, 0)` appended to the file: the call still returns the one
photon. -/
theorem trailing_words_discarded_witness :
    extract_photons true
        (appendToFile (oneFileDir 1514764800 [hdrWord0, dataWordS2, hdrWord0]) 1514764800
          [dataWord00])
        1514764800 0 beamMapS2 10 10
      = extract_photons true (oneFileDir 1514764800 [hdrWord0, dataWordS2, hdrWord0])
          1514764800 0 beamMapS2 10 10 :=
  (trailing_words_discarded true (oneFileDir 1514764800 [hdrWord0, dataWordS2, hdrWord0])
    1514764800 0 beamMapS2 10 10 1514764800 [dataWord00] (by decide)
    (by
      intro data hd
      have : data = [hdrWord0, dataWordS2, hdrWord0] := by
        simpa [oneFileDir] using hd.symm
      subst this
      decide)).2.2

/-! ## Bounds of the table accesses -/

/-- A sequence of calls of `ParseToMem` is the sequence of loop iterations on the
data words that reach the data-word loop. -/
theorem calls_eq_events (c : Ctx) :
    ∀ (calls : List (Int × List Nat × Nat)) (st : PhotonTables),
      calls.foldl (fun s call => ParseToMem c call.2.1 call.2.2 call.1 s) st
        = (streamEvents c calls).foldl (fun s ev => ingest c ev.1 s ev.2) st := by
  intro calls
  induction calls with
  | nil => intro st; rfl
  | cons call calls ih =>
    intro st
    rw [List.foldl_cons, ih]
    simp only [streamEvents, List.foldl_append]
    congr 1
    unfold ParseToMem packetEvents
    dsimp only
    split_ifs
    · rfl
    · rfl
    · rw [List.foldl_map]

/-- After any sequence of loop iterations the buffer of an assigned cell has the
number of slots the reallocation rule gives for its counter. -/
theorem events_pcap (c : Ctx) (x y : Nat) :
    ∀ (evs : List (Int × Nat)) (st : PhotonTables),
      st.pcap x y = capacityAfter (st.ptablect x y) →
      (evs.foldl (fun s ev => ingest c ev.1 s ev.2) st).pcap x y
        = capacityAfter ((evs.foldl (fun s ev => ingest c ev.1 s ev.2) st).ptablect x y) := by
  intro evs
  induction evs with
  | nil => intro st h; exact h
  | cons ev evs ih =>
    intro st h
    exact ih _ (ingest_pcap c ev.1 st ev.2 x y h)

/-- A cell's counter after a sequence of loop iterations is at most its value
before plus the number of iterations. -/
theorem events_count_le (c : Ctx) (x y : Nat) :
    ∀ (evs : List (Int × Nat)) (st : PhotonTables),
      (evs.foldl (fun s ev => ingest c ev.1 s ev.2) st).ptablect x y
        ≤ st.ptablect x y + evs.length := by
  intro evs
  induction evs with
  | nil => intro st; simp
  | cons ev evs ih =>
    intro st
    have h1 := ih (ingest c ev.1 st ev.2)
    have h2 := ingest_count_le c ev.1 st ev.2 x y
    rw [List.foldl_cons, List.length_cons]
    split_ifs at h2 <;> omega

/-- When no entry has a negative coordinate, every index pair the
materialisation loop reads the tables with is that of a cell. -/
theorem materializeReads_in_bounds (cols rows : Nat) :
    ∀ (es : List BMEntry), (∀ e ∈ es, 0 ≤ e.x ∧ 0 ≤ e.y) →
      ∀ p ∈ materializeReads cols rows es,
        0 ≤ p.1 ∧ p.1 < cols ∧ 0 ≤ p.2 ∧ p.2 < rows := by
  intro es
  induction es with
  | nil => intro _ p hp; simp [materializeReads] at hp
  | cons e es ih =>
    intro h p hp
    have he := h e (List.mem_cons_self _ _)
    have ih' := ih (fun f hf => h f (List.mem_cons_of_mem _ hf))
    unfold materializeReads at hp
    split_ifs at hp with h1 h2
    · exact ih' p hp
    · exact ih' p hp
    · rw [List.mem_cons] at hp
      rcases hp with hp | hp
      · subst hp
        dsimp only
        omega
      · exact ih' p hp

/-- Every index pair the materialisation loop reads the tables with is below
the bounds of the array, whatever the entries. -/
theorem materializeReads_below (cols rows : Nat) :
    ∀ (es : List BMEntry), ∀ p ∈ materializeReads cols rows es, p.1 < cols ∧ p.2 < rows := by
  intro es
  induction es with
  | nil => intro p hp; simp [materializeReads] at hp
  | cons e es ih =>
    intro p hp
    unfold materializeReads at hp
    split_ifs at hp with h1 h2
    · exact ih p hp
    · exact ih p hp
    · rw [List.mem_cons] at hp
      rcases hp with hp | hp
      · subst hp
        dsimp only
        omega
      · exact ih p hp

/-- Claim C22: with the beam-map entry `(resID 42, flag 0, x = -1, y = 2)` and a
10 x 10 array the materialisation loop passes its first two tests (the
comparison of the `long` value `-1` with `beamCols` is signed) and reads
`BeamMap[-1][2]`: the index `x = -1` is below 0.  `PopulateBeamMapImage` skips
the same entry by its test `x < 0`. -/
theorem materializer_reads_negative_index :
    materializeReads 10 10 [{ resID := 42, flag := 0, x := -1, y := 2 }] = [(-1, 2)]
      ∧ (buildImage [{ resID := 42, flag := 0, x := -1, y := 2 }] 10 10).1 3 4
        = (buildImage [] 10 10).1 3 4
      ∧ (finalTables emptyDir 1514764800 0 [{ resID := 42, flag := 0, x := -1, y := 2 }]
          10 10).isSome = true
      ∧ extract_photons true emptyDir 1514764800 0
          [{ resID := 42, flag := 0, x := -1, y := 2 }] 10 10 = none
      ∧ extract_photons true (oneFileDir 1514764800 [hdrWord0, dataWordS2, hdrWord0])
          1514764800 0
          [{ resID := 42, flag := 0, x := 3, y := 4 }, { resID := 7, flag := 0, x := 0, y := -1 }]
          10 10 = none := by
  decide

/-! ## Single-precision arithmetic of the reallocation step -/

/-- The rounded quotient is at most half a unit below the quotient. -/
theorem roundNearestEven_ge (n d : Nat) (hd : 0 < d) :
    2 * n ≤ 2 * (roundNearestEven n d * d) + d := by
  have h := Nat.div_add_mod n d
  have hm := Nat.mod_lt n hd
  have hc : d * (n / d) = n / d * d := Nat.mul_comm _ _
  unfold roundNearestEven
  split_ifs <;> (try simp only [Nat.add_mul, Nat.one_mul]) <;> omega

/-- The rounded quotient is at most half a unit above the quotient. -/
theorem roundNearestEven_le (n d : Nat) (hd : 0 < d) :
    2 * (roundNearestEven n d * d) ≤ 2 * n + d := by
  have h := Nat.div_add_mod n d
  have hm := Nat.mod_lt n hd
  have hc : d * (n / d) = n / d * d := Nat.mul_comm _ _
  unfold roundNearestEven
  split_ifs <;> (try simp only [Nat.add_mul, Nat.one_mul]) <;> omega

theorem highBitAux_le : ∀ (bound n k : Nat), n < 2 ^ (k + 1) → highBitAux bound n ≤ k := by
  intro bound
  induction bound with
  | zero => intro n k _; simp [highBitAux]
  | succ bound ih =>
    intro n k h
    unfold highBitAux
    split_ifs with h2
    · omega
    · cases k with
      | zero => simp at h; omega
      | succ k =>
        have := ih (n / 2) k (by
          rw [Nat.div_lt_iff_lt_mul (by norm_num)]
          rw [pow_succ] at h
          exact h)
        omega

/-- A number below `2 ^ (k + 1)` has its highest set bit at index `k` or below. -/
theorem highBit_le (n k : Nat) (h : n < 2 ^ (k + 1)) : highBit n ≤ k :=
  highBitAux_le n n k h

theorem highBitAux_eq_log2 :
    ∀ (bound n : Nat), n ≤ bound → highBitAux bound n = Nat.log2 n := by
  intro bound
  induction bound with
  | zero =>
    intro n h
    have : n = 0 := by omega
    subst this
    simp [highBitAux, Nat.log2]
  | succ bound ih =>
    intro n h
    unfold highBitAux
    rw [Nat.log2]
    split_ifs with h1 h2 h2
    · omega
    · rfl
    · rw [ih (n / 2) (by omega)]
    · omega

/-- The index of the highest set bit is the binary logarithm of the library. -/
theorem highBit_eq_log2 (n : Nat) : highBit n = Nat.log2 n :=
  highBitAux_eq_log2 n n le_rfl

/-- The conversion to `float` of a value below `2 ^ (24 + m)` moves it by at most
`2 ^ m / 2`. -/
theorem floatOfNat_near (n m : Nat) (h : n < 2 ^ (24 + m)) :
    2 * n ≤ 2 * floatOfNat n + 2 ^ m ∧ 2 * floatOfNat n ≤ 2 * n + 2 ^ m := by
  have hb : highBit n - 23 ≤ m := by
    have := highBit_le n (23 + m) (by rw [show 23 + m + 1 = 24 + m by omega]; exact h)
    omega
  have hpos : 0 < 2 ^ (highBit n - 23) := pow_pos (by norm_num) _
  have hle : 2 ^ (highBit n - 23) ≤ 2 ^ m := Nat.pow_le_pow_right (by norm_num) hb
  have h1 := roundNearestEven_ge n _ hpos
  have h2 := roundNearestEven_le n _ hpos
  unfold floatOfNat
  omega

/-- The binary exponent of a quotient is at most the difference of the indices of
the highest set bits. -/
theorem quotientExponent_le (a b : Nat) :
    quotientExponent a b ≤ (highBit a : Int) - highBit b := by
  unfold quotientExponent
  split_ifs <;> omega

/-- A single-precision quotient above `j + 1/2` has a ceiling above `j`. -/
theorem ceilFloatDiv_ge (a b j : Nat) (hb : 0 < b) (hs : quotientExponent a b ≤ 23)
    (h : 2 * (j * b) + b < 2 * a) : j + 1 ≤ ceilFloatDiv a b := by
  unfold ceilFloatDiv
  rw [if_pos (by omega)]
  generalize (23 - quotientExponent a b).toNat = s
  have hS : 0 < 2 ^ s := pow_pos (by norm_num) _
  generalize 2 ^ s = S at hS
  have h1 := roundNearestEven_ge (a * S) b hb
  generalize roundNearestEven (a * S) b = N at h1
  rw [Nat.le_div_iff_mul_le hS]
  by_contra hcon
  have hN : N ≤ j * S := by
    have : N + S - 1 < (j + 1) * S := by omega
    rw [Nat.add_mul, Nat.one_mul] at this
    omega
  have e1 : N * b ≤ j * S * b := Nat.mul_le_mul_right b hN
  have e2 : (2 * (j * b) + b + 1) * S ≤ 2 * a * S := Nat.mul_le_mul_right S (by omega)
  have e3 : b * 1 ≤ b * S := Nat.mul_le_mul_left b hS
  nlinarith [e1, e2, e3]

/-- A single-precision quotient of at most `j + 1` has a ceiling of at most
`j + 1`. -/
theorem ceilFloatDiv_le (a b j : Nat) (hb : 0 < b) (hs : quotientExponent a b ≤ 23)
    (h : a ≤ (j + 1) * b) : ceilFloatDiv a b ≤ j + 1 := by
  unfold ceilFloatDiv
  rw [if_pos (by omega)]
  generalize (23 - quotientExponent a b).toNat = s
  have hS : 0 < 2 ^ s := pow_pos (by norm_num) _
  generalize 2 ^ s = S at hS
  have h1 := roundNearestEven_le (a * S) b hb
  generalize roundNearestEven (a * S) b = N at h1
  have key : N ≤ (j + 1) * S := by
    by_contra hcon
    have hN : (j + 1) * S + 1 ≤ N := by omega
    have e1 : ((j + 1) * S + 1) * b ≤ N * b := Nat.mul_le_mul_right b hN
    have e2 : a * S ≤ (j + 1) * b * S := Nat.mul_le_mul_right S h
    nlinarith [e1, e2, h1]
  have hlt : N + S - 1 < (j + 1 + 1) * S := by
    rw [Nat.add_mul (j + 1) 1 S, Nat.one_mul]
    omega
  have := (Nat.div_lt_iff_lt_mul hS).mpr hlt
  omega

/-- The binary exponent of the quotient by `MAX_CNT_RATE` of the conversion of a
`uint32_t` value is at most 23: the quotient is rounded to a multiple of a
power `2 ^ (-s)` with `s ≥ 0`. -/
theorem quotientExponent_counter (ct : Nat) (h : ct < 2 ^ 32) :
    quotientExponent (floatOfNat ct) MAX_CNT_RATE ≤ 23 := by
  have hn := floatOfNat_near ct 8 h
  have hlt : floatOfNat ct < 2 ^ (32 + 1) := by
    norm_num at hn h ⊢
    omega
  have h1 := highBit_le _ 32 hlt
  have h2 := quotientExponent_le (floatOfNat ct) MAX_CNT_RATE
  have h3 : highBit MAX_CNT_RATE = 11 := by decide
  rw [h3] at h2
  omega

/-- At a `uint32_t` counter the reallocation step leaves at least the slots of
the rule `MAX_CNT_RATE * (ceil (count / MAX_CNT_RATE) + 1)`. -/
theorem grownCapacity_ge (ct cap : Nat) (h : ct < 2 ^ 32)
    (hcap : MAX_CNT_RATE * ((ct + 1) / MAX_CNT_RATE + 1) ≤ cap) :
    MAX_CNT_RATE * ((ct + 2) / MAX_CNT_RATE + 1) ≤ grownCapacity ct cap := by
  unfold grownCapacity
  split_ifs with hm
  · have hn := floatOfNat_near ct 8 h
    have hc := ceilFloatDiv_ge (floatOfNat ct) MAX_CNT_RATE (ct / MAX_CNT_RATE)
      (by decide) (quotientExponent_counter ct h) (by
        unfold MAX_CNT_RATE at hm ⊢
        norm_num at hn
        omega)
    have e : (ct + 2) / MAX_CNT_RATE = ct / MAX_CNT_RATE + 1 := by
      unfold MAX_CNT_RATE at hm ⊢
      omega
    rw [e]
    exact Nat.mul_le_mul_left _ (by omega)
  · have e : (ct + 2) / MAX_CNT_RATE = (ct + 1) / MAX_CNT_RATE := by
      unfold MAX_CNT_RATE at hm ⊢
      omega
    rw [e]
    exact hcap

/-- Below `2 ^ 26` the reallocation step leaves exactly the slots of the rule
`MAX_CNT_RATE * (ceil (count / MAX_CNT_RATE) + 1)`. -/
theorem grownCapacity_exact (ct cap : Nat) (h : ct < 2 ^ 26)
    (hm : ct % MAX_CNT_RATE = MAX_CNT_RATE - 2) :
    grownCapacity ct cap
      = MAX_CNT_RATE * ((ct + MAX_CNT_RATE - 1) / MAX_CNT_RATE + 1) := by
  have h32 : ct < 2 ^ 32 := lt_of_lt_of_le h (by norm_num)
  have hn := floatOfNat_near ct 2 h
  have hq := quotientExponent_counter ct h32
  have hge := ceilFloatDiv_ge (floatOfNat ct) MAX_CNT_RATE (ct / MAX_CNT_RATE)
    (by decide) hq (by
      unfold MAX_CNT_RATE at hm ⊢
      norm_num at hn
      omega)
  have hle := ceilFloatDiv_le (floatOfNat ct) MAX_CNT_RATE (ct / MAX_CNT_RATE)
    (by decide) hq (by
      unfold MAX_CNT_RATE at hm ⊢
      norm_num at hn
      omega)
  unfold grownCapacity
  rw [if_pos hm]
  have e : (ct + MAX_CNT_RATE - 1) / MAX_CNT_RATE = ct / MAX_CNT_RATE + 1 := by
    unfold MAX_CNT_RATE at hm ⊢
    omega
  rw [e]
  congr 2
  omega

/-- After `k` appends, `k` a `uint32_t` count, the buffer has at least the slots
the rule with the exact ceiling gives. -/
theorem capacityAfter_ge (k : Nat) (hk : k ≤ 2 ^ 32) :
    MAX_CNT_RATE * ((k + 1) / MAX_CNT_RATE + 1) ≤ capacityAfter k := by
  induction k with
  | zero => decide
  | succ k ih =>
    exact grownCapacity_ge k _ (by omega) (ih (by omega))

/-- Up to `2 ^ 26` appends the buffer has exactly the slots the rule with the
exact ceiling gives, a number in `[k, k + MAX_CNT_RATE + 1]`. -/
theorem capacityAfter_exact (k : Nat) (hk : k ≤ 2 ^ 26) :
    capacityAfter k = MAX_CNT_RATE * ((k + 1) / MAX_CNT_RATE + 1)
      ∧ k ≤ capacityAfter k ∧ capacityAfter k ≤ k + MAX_CNT_RATE + 1 := by
  have hc : capacityAfter k = MAX_CNT_RATE * ((k + 1) / MAX_CNT_RATE + 1) := by
    induction k with
    | zero => decide
    | succ k ih =>
      have ih' := ih (by omega)
      show grownCapacity k (capacityAfter k) = _
      by_cases hm : k % MAX_CNT_RATE = MAX_CNT_RATE - 2
      · rw [grownCapacity_exact k _ (by omega) hm]
        unfold MAX_CNT_RATE at hm ⊢
        omega
      · unfold grownCapacity
        rw [if_neg hm, ih']
        unfold MAX_CNT_RATE at hm ⊢
        omega
  rw [hc]
  unfold MAX_CNT_RATE
  omega

/-! ## Capacity of the buffers -/

/-- A loop iteration on a data word of an in-range cell that is not gated raises
the counter of the cell by one and leaves its buffer with the slots of the
reallocation step. -/
theorem ingest_appends (c : Ctx) (b : Int) (st : PhotonTables) (w x y : Nat)
    (hxe : x = (dataOfWord (__bswap_64 w)).xcoord)
    (hye : y = (dataOfWord (__bswap_64 w)).ycoord)
    (hx : x < c.beamCols) (hy : y < c.beamRows)
    (hg : ¬(c.mapflag > 0 ∧ c.BeamFlag x y > 0)) :
    (ingest c b st w).ptablect x y = st.ptablect x y + 1
      ∧ (ingest c b st w).pcap x y = grownCapacity (st.ptablect x y) (st.pcap x y) := by
  have ha : addressedTo x y (b, w) = true := by
    simp [addressedTo, hxe, hye]
  refine ⟨(ingest_admitted c b st w x y hx hy hg ha).2, ?_⟩
  subst hxe hye
  unfold ingest
  dsimp only
  rw [if_neg (by omega), if_neg hg]
  simp [setCell]

/-- The counter of a cell after `n` iterations on the same data word of that
cell. -/
theorem replicate_count (c : Ctx) (b : Int) (w x y : Nat)
    (hxe : x = (dataOfWord (__bswap_64 w)).xcoord)
    (hye : y = (dataOfWord (__bswap_64 w)).ycoord)
    (hx : x < c.beamCols) (hy : y < c.beamRows)
    (hg : ¬(c.mapflag > 0 ∧ c.BeamFlag x y > 0)) :
    ∀ (n : Nat) (st : PhotonTables),
      ((List.replicate n (b, w)).foldl (fun s ev => ingest c ev.1 s ev.2) st).ptablect x y
        = st.ptablect x y + n := by
  intro n
  induction n with
  | zero => intro st; rfl
  | succ n ih =>
    intro st
    rw [List.replicate_succ, List.foldl_cons, ih,
      (ingest_appends c b st w x y hxe hye hx hy hg).1]
    omega

/-- Starting from the counter 0, after `m = n + 1` iterations on the same data
word of a cell the counter of the cell is `m` and its buffer has the slots the
reallocation step leaves at the counter `n`. -/
theorem replicate_pcap (c : Ctx) (b : Int) (w x y : Nat)
    (hxe : x = (dataOfWord (__bswap_64 w)).xcoord)
    (hye : y = (dataOfWord (__bswap_64 w)).ycoord)
    (hx : x < c.beamCols) (hy : y < c.beamRows)
    (hg : ¬(c.mapflag > 0 ∧ c.BeamFlag x y > 0))
    (n m : Nat) (hm : m = n + 1) (st : PhotonTables) (h0 : st.ptablect x y = 0) :
    ((List.replicate m (b, w)).foldl (fun s ev => ingest c ev.1 s ev.2) st).ptablect x y = m
      ∧ ((List.replicate m (b, w)).foldl (fun s ev => ingest c ev.1 s ev.2) st).pcap x y
        = grownCapacity n
            (((List.replicate n (b, w)).foldl
              (fun s ev => ingest c ev.1 s ev.2) st).pcap x y) := by
  subst hm
  constructor
  · rw [replicate_count c b w x y hxe hye hx hy hg (n + 1) st, h0, Nat.zero_add]
  · rw [List.replicate_succ', List.foldl_append, List.foldl_cons, List.foldl_nil,
      (ingest_appends c b _ w x y hxe hye hx hy hg).2,
      replicate_count c b w x y hxe hye hx hy hg n st, h0, Nat.zero_add]

/-- Claim C20: in a 10 x 10 array whose cells are all assigned, after the data word
of pixel `(3, 4)` has been appended 268452499 times the counter of the pixel is
268452499 and its buffer has 268457500 slots, which is above
`268452499 + MAX_CNT_RATE + 1`.  At the counter 268452498 the conversion to
`float` gives 268452512, the single-precision quotient by 2500 has the ceiling
107382, where the exact quotient has the ceiling 107381 and the rule of the
claim gives 268455000 slots. -/
theorem growth_exceeds_bound :
    ((List.replicate 268452499 ((0 : Int), dataWordS2)).foldl
          (fun s ev => ingest (callCtx 1514764800 0 gridS2 10 10) ev.1 s ev.2)
          (initTables (callCtx 1514764800 0 gridS2 10 10).BeamMap 10 10)).ptablect 3 4
        = 268452499
      ∧ ((List.replicate 268452499 ((0 : Int), dataWordS2)).foldl
          (fun s ev => ingest (callCtx 1514764800 0 gridS2 10 10) ev.1 s ev.2)
          (initTables (callCtx 1514764800 0 gridS2 10 10).BeamMap 10 10)).pcap 3 4
        = 268457500
      ∧ 268452499 + MAX_CNT_RATE + 1 < 268457500
      ∧ floatOfNat 268452498 = 268452512
      ∧ ceilFloatDiv 268452512 MAX_CNT_RATE = 107382
      ∧ (268452498 + MAX_CNT_RATE - 1) / MAX_CNT_RATE = 107381
      ∧ MAX_CNT_RATE * ((268452498 + MAX_CNT_RATE - 1) / MAX_CNT_RATE + 1) = 268455000 := by
  have hg : ¬((callCtx 1514764800 0 gridS2 10 10).mapflag > 0
      ∧ (callCtx 1514764800 0 gridS2 10 10).BeamFlag 3 4 > 0) := by decide
  have hrep := replicate_pcap (callCtx 1514764800 0 gridS2 10 10) 0 dataWordS2 3 4
    (by decide) (by decide) (by decide) (by decide) hg 268452498 268452499 (by norm_num)
    (initTables (callCtx 1514764800 0 gridS2 10 10).BeamMap 10 10) rfl
  have hgrow : ∀ cap, grownCapacity 268452498 cap = 268457500 := by
    intro cap
    unfold grownCapacity
    rw [if_pos (by decide)]
    decide
  refine ⟨hrep.1, ?_, by decide, by decide, by decide, by decide, by decide⟩
  rw [hrep.2]
  exact hgrow _

/-- A loop iteration that appends to a cell whose buffer has the slots the
reallocation steps give for its counter, a `uint32_t` value, writes below the
number of slots the buffer has at the write. -/
theorem ingest_write_lt (c : Ctx) (b : Int) (st : PhotonTables) (w x y : Nat)
    (hxe : x = (dataOfWord (__bswap_64 w)).xcoord)
    (hye : y = (dataOfWord (__bswap_64 w)).ycoord)
    (hx : x < c.beamCols) (hy : y < c.beamRows)
    (hg : ¬(c.mapflag > 0 ∧ c.BeamFlag x y > 0))
    (hinv : st.pcap x y = capacityAfter (st.ptablect x y))
    (hct : st.ptablect x y < 2 ^ 32) :
    (ingest c b st w).ptablect x y = st.ptablect x y + 1
      ∧ (ingest c b st w).pcap x y = grownCapacity (st.ptablect x y) (st.pcap x y)
      ∧ st.ptablect x y < (ingest c b st w).pcap x y := by
  have hw := ingest_appends c b st w x y hxe hye hx hy hg
  have hnext := ingest_pcap c b st w x y hinv
  refine ⟨hw.1, hw.2, ?_⟩
  rw [hnext, hw.1]
  generalize st.ptablect x y = ct at hct ⊢
  have hge := capacityAfter_ge (ct + 1) (by omega)
  unfold MAX_CNT_RATE at hge
  omega

/-- Claim C21: for an assigned pixel `(x, y)` (in range, `BeamMap[x][y]` not the
initial value), after any sequence of loop iterations of `ParseToMem` started
from the tables of the initial allocation, a data word that is appended to the
pixel raises the counter by one from the index `count = ptablect[x][y]` it is
written at, the buffer has at the write the slots the reallocation step of this
iteration leaves, and the index is below that number of slots; the index is at
most the number of iterations made before.  The counter is a `uint32_t`: its
value is below `2 ^ 32`. -/
theorem append_in_bounds (c : Ctx) (evs : List (Int × Nat)) (b : Int) (w x y : Nat)
    (hxe : x = (dataOfWord (__bswap_64 w)).xcoord)
    (hye : y = (dataOfWord (__bswap_64 w)).ycoord)
    (hx : x < c.beamCols) (hy : y < c.beamRows)
    (hg : ¬(c.mapflag > 0 ∧ c.BeamFlag x y > 0))
    (hmap : c.BeamMap x y ≠ beamMapInitVal)
    (hct : (evs.foldl (fun s ev => ingest c ev.1 s ev.2)
      (initTables c.BeamMap c.beamCols c.beamRows)).ptablect x y < 2 ^ 32) :
    (ingest c b
          (evs.foldl (fun s ev => ingest c ev.1 s ev.2)
            (initTables c.BeamMap c.beamCols c.beamRows)) w).ptablect x y
        = (evs.foldl (fun s ev => ingest c ev.1 s ev.2)
            (initTables c.BeamMap c.beamCols c.beamRows)).ptablect x y + 1
      ∧ (ingest c b
          (evs.foldl (fun s ev => ingest c ev.1 s ev.2)
            (initTables c.BeamMap c.beamCols c.beamRows)) w).pcap x y
        = grownCapacity
            ((evs.foldl (fun s ev => ingest c ev.1 s ev.2)
              (initTables c.BeamMap c.beamCols c.beamRows)).ptablect x y)
            ((evs.foldl (fun s ev => ingest c ev.1 s ev.2)
              (initTables c.BeamMap c.beamCols c.beamRows)).pcap x y)
      ∧ (evs.foldl (fun s ev => ingest c ev.1 s ev.2)
            (initTables c.BeamMap c.beamCols c.beamRows)).ptablect x y
        < (ingest c b
          (evs.foldl (fun s ev => ingest c ev.1 s ev.2)
            (initTables c.BeamMap c.beamCols c.beamRows)) w).pcap x y
      ∧ (evs.foldl (fun s ev => ingest c ev.1 s ev.2)
            (initTables c.BeamMap c.beamCols c.beamRows)).ptablect x y ≤ evs.length := by
  have h0 : (initTables c.BeamMap c.beamCols c.beamRows).pcap x y
      = capacityAfter ((initTables c.BeamMap c.beamCols c.beamRows).ptablect x y) := by
    simp [initTables, hx, hy, hmap, capacityAfter]
  have hle := events_count_le c x y evs (initTables c.BeamMap c.beamCols c.beamRows)
  have hz : (initTables c.BeamMap c.beamCols c.beamRows).ptablect x y = 0 := rfl
  rw [hz, Nat.zero_add] at hle
  have hw := ingest_write_lt c b _ w x y hxe hye hx hy hg
    (events_pcap c x y evs (initTables c.BeamMap c.beamCols c.beamRows) h0) hct
  exact ⟨hw.1, hw.2.1, hw.2.2, hle⟩

/-- Claim C21, at the call of scenario S2: after the first data word of pixel
`(3, 4)` a second one is written at index 1 of a buffer of 2500 slots. -/
theorem append_in_bounds_witness :
    ([((0 : Int), dataWordS2)].foldl
          (fun s ev => ingest (callCtx 1514764800 0 beamMapS2 10 10) ev.1 s ev.2)
          (initTables (callCtx 1514764800 0 beamMapS2 10 10).BeamMap
            (callCtx 1514764800 0 beamMapS2 10 10).beamCols
            (callCtx 1514764800 0 beamMapS2 10 10).beamRows)).ptablect 3 4
        < (ingest (callCtx 1514764800 0 beamMapS2 10 10) 0
          ([((0 : Int), dataWordS2)].foldl
            (fun s ev => ingest (callCtx 1514764800 0 beamMapS2 10 10) ev.1 s ev.2)
            (initTables (callCtx 1514764800 0 beamMapS2 10 10).BeamMap
              (callCtx 1514764800 0 beamMapS2 10 10).beamCols
              (callCtx 1514764800 0 beamMapS2 10 10).beamRows)) dataWordS2).pcap 3 4 :=
  (append_in_bounds (callCtx 1514764800 0 beamMapS2 10 10) [((0 : Int), dataWordS2)] 0
    dataWordS2 3 4 (by decide) (by decide) (by decide) (by decide) (by decide)
    (by decide) (by decide)).2.2.1

/-! ## Materialization of a defined call -/

/-- When the cleanup loop frees only pointers that were set, every cell of the
array has a buffer of `MAX_CNT_RATE` slots before the file loop, so `ParseToMem`
never writes to a cell without a buffer. -/
theorem cleanupDefined_allocated (BeamMap : Table) (beamCols beamRows : Nat)
    (h : cleanupDefined BeamMap beamCols beamRows = true) (x y : Nat)
    (hx : x < beamCols) (hy : y < beamRows) :
    BeamMap x y ≠ beamMapInitVal
      ∧ (initTables BeamMap beamCols beamRows).pcap x y = MAX_CNT_RATE := by
  unfold cleanupDefined at h
  rw [List.all_eq_true] at h
  have h1 := h x (List.mem_range.mpr hx)
  rw [List.all_eq_true] at h1
  have h2 := h1 y (List.mem_range.mpr hy)
  simp only [Bool.or_eq_true, decide_eq_true_eq] at h2
  have hne : BeamMap x y ≠ beamMapInitVal := by
    rcases h2 with h0 | h0
    · rw [h0]
      decide
    · exact h0
  refine ⟨hne, ?_⟩
  simp [initTables, hx, hy, hne]

end MKIDCore
